import Mathlib

/-!
Shallow embedding of the hierarchical task store and its query/mutation
engine (`app/routes/tasks.py`), together with proofs about the claims of
the specification.

Modelling conventions:
* Task ids (`ObjectId`) are natural numbers; the public interface carries
  them as 24-character hexadecimal strings, parsed by `parseObjectId`.
* Timestamps produced by `_now_iso` are natural numbers, passed explicitly
  as a `now` argument to each operation.
* The Mongo collection is an association list `Store := List (Nat × Task)`;
  queries are filters over that list.
* Unbounded loops / recursion in the source (`_collect_descendants`'s
  `while frontier`, `_build_subtree`'s recursion) take an explicit fuel
  argument; a result of `none` means the source loop has not terminated
  within that fuel.
* Fallible handlers return `Except String`, carrying the exact error
  message strings raised by the source.
-/

namespace Todo

/-- A stored task document, fields as built by `TasksCollection.post`. -/
structure Task where
  user_id : Nat
  title : String
  description : Option String
  priority : Option Nat
  estimate_minutes : Option Nat
  due_date : Option String
  parent_id : Option Nat
  completed : Bool
  created_at : Nat
  updated_at : Nat
  completed_at : Option Nat
deriving Repr, DecidableEq

/-- The tasks collection: one record per task, keyed by its id. -/
abbrev Store := List (Nat × Task)

/-- `tasks.find_one({"_id": oid})` — lookup by id alone. -/
def lookupKey (st : Store) (oid : Nat) : Option Task :=
  (st.find? fun p => p.1 == oid).map Prod.snd

/-- `tasks.find_one({"_id": oid, "user_id": uid})` — owner-scoped lookup. -/
def findOwned (st : Store) (oid uid : Nat) : Option Task :=
  (st.find? fun p => p.1 == oid && p.2.user_id == uid).map Prod.snd

/-- Ids of `tasks.find({"parent_id": cur, "user_id": uid}, {"_id": 1})`. -/
def childrenIds (st : Store) (uid cur : Nat) : List Nat :=
  (st.filter fun p => p.2.parent_id == some cur && p.2.user_id == uid).map Prod.fst

/-- `frontier.pop()` — Python `list.pop` removes and returns the LAST element. -/
def popLast : List Nat → Option (Nat × List Nat)
  | [] => none
  | [a] => some (a, [])
  | a :: b :: rest =>
    match popLast (b :: rest) with
    | some (x, r) => some (x, a :: r)
    | none => none

/-- The `while frontier:` loop body of `_collect_descendants` (tasks.py
lines 239-244), with explicit fuel; `none` means the loop has not finished
within `fuel` iterations. -/
def collectLoop : Nat → Store → Nat → List Nat → List Nat → Option (List Nat)
  | 0, _, _, _, _ => none
  | _ + 1, _, _, [], collected => some collected
  | fuel + 1, st, uid, f :: fs, collected =>
    match popLast (f :: fs) with
    | some (cur, rest) =>
      let child_ids := childrenIds st uid cur
      collectLoop fuel st uid (rest ++ child_ids) (collected ++ child_ids)
    | none => none

/-- `_collect_descendants(user_id, root_oid)`: collected and frontier both
start as `[root_oid]`. -/
def collect_descendants (fuel : Nat) (st : Store) (uid root_oid : Nat) :
    Option (List Nat) :=
  collectLoop fuel st uid [root_oid] [root_oid]

/-- `_has_children`: `count_documents({"parent_id": oid, "user_id": uid}, limit=1) > 0`. -/
def has_children (st : Store) (uid oid : Nat) : Bool :=
  st.any fun p => p.2.parent_id == some oid && p.2.user_id == uid

/-- `_prevent_circular_parent(user_id, task_oid, new_parent_oid)`. -/
def prevent_circular_parent (fuel : Nat) (st : Store) (uid task_oid : Nat)
    (new_parent_oid : Option Nat) : Option (Except String Unit) :=
  match new_parent_oid with
  | none => some (.ok ())
  | some p =>
    if p = task_oid then some (.error "parent_id cannot be the task itself.")
    else
      match collect_descendants fuel st uid task_oid with
      | none => none
      | some descendants =>
        if p ∈ descendants then
          some (.error "parent_id cannot be a descendant of the task (circular hierarchy).")
        else some (.ok ())

/-- Value of one hexadecimal digit, `none` on a non-hex character. -/
def hexDigitVal (c : Char) : Option Nat :=
  if '0' ≤ c ∧ c ≤ '9' then some (c.toNat - '0'.toNat)
  else if 'a' ≤ c ∧ c ≤ 'f' then some (c.toNat - 'a'.toNat + 10)
  else if 'A' ≤ c ∧ c ≤ 'F' then some (c.toNat - 'A'.toNat + 10)
  else none

/-- Modelled from the spec: `bson.ObjectId(s)` (external library, not part
of this repository) accepts exactly a 24-character hexadecimal string and
is injective on those; modelled as parsing the 24 hex digits into the
natural number they denote, `none` on any other string. -/
def parseObjectId (s : String) : Option Nat :=
  if s.length = 24 then
    s.data.foldl (fun acc c => acc.bind fun n => (hexDigitVal c).map (n * 16 + ·)) (some 0)
  else none

/-- Python whitespace, as stripped by `str.strip()`. -/
def isPyWhitespace (c : Char) : Bool :=
  c = ' ' || c = '\t' || c = '\n' || c = '\r' || c = '\x0b' || c = '\x0c'

/-- Modelled from the spec: Python's `str.strip()` (stdlib, outside this
repository) — drop leading and trailing whitespace. -/
def pyStrip (s : String) : String :=
  ⟨((s.data.dropWhile isPyWhitespace).reverse.dropWhile isPyWhitespace).reverse⟩

/-- `_oid(obj_id)` (tasks.py lines 169-178): strip, map `""`/`"null"`/`"None"`
to the null id, otherwise parse as ObjectId or fail. -/
def oid (obj_id : Option String) : Except String (Option Nat) :=
  match obj_id with
  | none => .ok none
  | some s0 =>
    let s := pyStrip s0
    if s = "" ∨ s = "null" ∨ s = "None" then .ok none
    else
      match parseObjectId s with
      | some o => .ok (some o)
      | none => .error "Invalid id format."

/-- Modelled from the spec: the characters Python's `re.escape` (stdlib,
outside this repository) prefixes with a backslash — its documented
special-character map `()[]{}?*+-|^$\.&~# \t\n\r\v\f`. -/
def reSpecialChars : List Char :=
  ['(', ')', '[', ']', '\x7b', '\x7d', '?', '*', '+', '-', '|', '^', '$',
   '\\', '.', '&', '~', '#', ' ', '\t', '\n', '\r', '\x0b', '\x0c']

/-- Modelled from the spec: `re.escape(s)` — every special character is
prefixed with a backslash, all other characters pass through. -/
def reEscape (s : String) : String :=
  ⟨s.data.foldr (fun c acc => (if c ∈ reSpecialChars then ['\\', c] else [c]) ++ acc) []⟩

/-- Metacharacters of the underlying regex matcher that, unescaped, do not
denote themselves. -/
def regexMeta : List Char :=
  ['.', '^', '$', '*', '+', '?', '\x7b', '\x7d', '[', ']', '\\', '|', '(', ')']

/-- Modelled from the spec: the underlying substring-match mechanism is a
`$regex` search (external to this repository). Only patterns that are
sequences of literal characters (plain non-metacharacters, or a backslash
followed by a non-alphanumeric character) are modelled; `none` marks a
pattern using an unmodelled non-literal construct. -/
def decodeLiteralPattern : List Char → Option (List Char)
  | [] => some []
  | c :: rest =>
    if c = '\\' then
      match rest with
      | [] => none
      | c2 :: rest2 =>
        if c2.isAlphanum then none
        else (decodeLiteralPattern rest2).map (c2 :: ·)
    else if c ∈ regexMeta then none
    else (decodeLiteralPattern rest).map (c :: ·)

/-- Modelled from the spec: `$regex` search with `$options: "i"` — a literal
pattern matches a text iff the lowercased pattern occurs as a contiguous
substring of the lowercased text. -/
def regexSearchCI (pat text : String) : Option Bool :=
  (decodeLiteralPattern pat.data).map fun lits =>
    decide (List.IsInfix (lits.map Char.toLower) (text.data.map Char.toLower))

/-- The Mongo filter document built by `TasksCollection.get` (tasks.py
lines 326-354): `parent_id` is always present (the null-parent default). -/
structure Flt where
  user_id : Nat
  qre : Option String
  completed : Option Bool
  priority : Option Nat
  due_lte : Option String
  due_gte : Option String
  parent_id : Option Nat
deriving Repr, DecidableEq

/-- Modelled from the spec: `_parse_iso` delegates to Python's
`datetime.fromisoformat` (stdlib, outside this repository) after rewriting
a trailing `Z` into `+00:00`, and the handler re-serializes the result with
`dt.isoformat().replace("+00:00", "Z")`. The datetime round-trip is
modelled as the identity on the accepted text, so the net effect is the
`Z`/`+00:00` rewriting; `fromisoformat`'s validity check is modelled as
accepting every string (no claim concerns invalid datetimes). -/
def parse_iso_serialized (s : String) : String :=
  (if s.endsWith "Z" then s.dropRight 1 ++ "+00:00" else s).replace "+00:00" "Z"

/-- Build the filter of `TasksCollection.get`: owner scope, escaped `q`
regex over title/description, exact `completed`/`priority`, inclusive
due-date bounds, and the parent filter defaulting to null. -/
def buildFlt (uid : Nat) (q : Option String) (completed : Option Bool)
    (priority : Option Nat) (due_before due_after parent_id : Option String) :
    Except String Flt :=
  let qre : Option String :=
    match q with
    | some s => if s = "" then none else some (reEscape (pyStrip s))
    | none => none
  let due_lte : Option String :=
    match due_before with
    | some s => if s = "" then none else some (parse_iso_serialized s)
    | none => none
  let due_gte : Option String :=
    match due_after with
    | some s => if s = "" then none else some (parse_iso_serialized s)
    | none => none
  match parent_id with
  | some ps =>
    (oid (some ps)).map fun po =>
      ⟨uid, qre, completed, priority, due_lte, due_gte, po⟩
  | none => .ok ⟨uid, qre, completed, priority, due_lte, due_gte, none⟩

/-- `a <= b` on BSON strings (lexicographic by code point). -/
def strLe (a b : String) : Bool := a == b || decide (a < b)

/-- The `$or` clause: `q` regex against title OR description; a null
description never matches a regex clause. -/
def qCond (pat : String) (t : Task) : Option Bool := do
  let mt ← regexSearchCI pat t.title
  let md ← (match t.description with
    | some d => regexSearchCI pat d
    | none => pure false)
  pure (mt || md)

/-- Whether one task document matches the filter (conjunction of the
filter's clauses, as Mongo evaluates the filter document). -/
def docMatches (f : Flt) (t : Task) : Option Bool := do
  let qok ← (match f.qre with
    | some pat => qCond pat t
    | none => pure true)
  pure ((t.user_id == f.user_id) && qok
    && (match f.completed with | some b => t.completed == b | none => true)
    && (match f.priority with | some pv => t.priority == some pv | none => true)
    && (match f.due_lte with
        | some bnd => (match t.due_date with | some d => strLe d bnd | none => false)
        | none => true)
    && (match f.due_gte with
        | some bnd => (match t.due_date with | some d => strLe bnd d | none => false)
        | none => true)
    && (t.parent_id == f.parent_id))

/-- Sort-key values: BSON null, number, or string. -/
inductive BVal where
  | nullv
  | intv (n : Nat)
  | strv (s : String)
deriving Repr, DecidableEq

/-- Modelled from the spec: the store's total type order on sort keys
(null < numbers < strings), restricted to the shapes a task field holds. -/
def bvalCmp : BVal → BVal → Ordering
  | .nullv, .nullv => .eq
  | .nullv, _ => .lt
  | _, .nullv => .gt
  | .intv a, .intv b => compare a b
  | .intv _, .strv _ => .lt
  | .strv _, .intv _ => .gt
  | .strv a, .strv b => compare a b

/-- The sort-key value of a (id, task) document for a named sort field. -/
def fieldBVal (p : Nat × Task) : String → BVal
  | "created_at" => .intv p.2.created_at
  | "updated_at" => .intv p.2.updated_at
  | "due_date" => (match p.2.due_date with | some d => .strv d | none => .nullv)
  | "priority" => (match p.2.priority with | some n => .intv n | none => .nullv)
  | "estimate_minutes" =>
    (match p.2.estimate_minutes with | some n => .intv n | none => .nullv)
  | "title" => .strv p.2.title
  | "_id" => .intv p.1
  | _ => .nullv

/-- `_make_sort(sort_by, sort_order)` (tasks.py lines 265-277). -/
def make_sort (sort_by sort_order : String) : List (String × Int) :=
  let order : Int := if sort_order = "desc" then -1 else 1
  let field_map : List (String × String) :=
    [("created_at", "created_at"), ("updated_at", "updated_at"),
     ("due_date", "due_date"), ("priority", "priority"),
     ("estimate_minutes", "estimate_minutes"), ("title", "title")]
  let sort_field :=
    ((field_map.find? fun kv => kv.1 == sort_by).map Prod.snd).getD "created_at"
  [(sort_field, order), ("_id", order)]

/-- Compare two documents under a sort spec (field list with ±1 direction). -/
def cmpBySpec (spec : List (String × Int)) (a b : Nat × Task) : Ordering :=
  match spec with
  | [] => .eq
  | (f, ord) :: rest =>
    match (if ord < 0 then (bvalCmp (fieldBVal a f) (fieldBVal b f)).swap
           else bvalCmp (fieldBVal a f) (fieldBVal b f)) with
    | .eq => cmpBySpec rest a b
    | r => r

/-- Insert into a sorted list (stable). -/
def insertSorted {α : Type} (le : α → α → Bool) (x : α) : List α → List α
  | [] => [x]
  | y :: ys => if le x y then x :: y :: ys else y :: insertSorted le x ys

/-- Stable insertion sort, modelling the store's server-side sort. -/
def sortWith {α : Type} (le : α → α → Bool) : List α → List α
  | [] => []
  | x :: xs => insertSorted le x (sortWith le xs)

/-- Pagination metadata (`meta`, tasks.py lines 370-378). -/
structure PageMeta where
  total : Nat
  total_pages : Nat
  first_page : Nat
  last_page : Nat
  page : Nat
  previous_page : Option Nat
  next_page : Option Nat
deriving Repr, DecidableEq

/-- `TasksCollection.get` (tasks.py lines 291-379): build the filter, count,
compute pagination, sort, skip/limit, and shape the metadata. -/
def tasksCollection_get (st : Store) (uid : Nat) (q : Option String)
    (completed : Option Bool) (priority : Option Nat)
    (due_before due_after parent_id : Option String)
    (sort_by sort_order : String) (page page_size : Nat) :
    Option (Except String (List (Nat × Task) × PageMeta)) :=
  match buildFlt uid q completed priority due_before due_after parent_id with
  | .error e => some (.error e)
  | .ok flt =>
    match st.mapM (fun p => (docMatches flt p.2).map fun b => (p, b)) with
    | none => none
    | some withFlags =>
      let matched := (withFlags.filter fun pb => pb.2).map Prod.fst
      let total := matched.length
      let last_page := if page_size > 0 then (total + page_size - 1) / page_size else 1
      let page' := max 1 (min page (max 1 last_page))
      let sorted :=
        sortWith (fun a b => (cmpBySpec (make_sort sort_by sort_order) a b) ≠ .gt) matched
      let items := (sorted.drop ((page' - 1) * page_size)).take page_size
      let lp1 := if last_page = 0 then 1 else last_page
      some (.ok (items,
        { total := total
          total_pages := last_page
          first_page := 1
          last_page := lp1
          page := page'
          previous_page := if page' > 1 then some (page' - 1) else none
          next_page := if page' < lp1 then some (page' + 1) else none }))

/-- The document dict built by `TasksCollection.post` (tasks.py lines
421-434): `created_at = updated_at = now`, `completed_at = now iff
completed`. -/
def newTaskDoc (uid : Nat) (title : String) (description : Option String)
    (priority estimate_minutes : Option Nat) (due_date : Option String)
    (parent_oid : Option Nat) (completed : Bool) (now : Nat) : Task :=
  { user_id := uid, title := title, description := description
    priority := priority, estimate_minutes := estimate_minutes
    due_date := due_date, parent_id := parent_oid, completed := completed
    created_at := now, updated_at := now
    completed_at := if completed then some now else none }

/-- `TasksCollection.post` (tasks.py lines 384-437). `newId` stands for the
fresh `ObjectId` generated by `insert_one`; callers must supply an id not
already in the store (the generator never repeats an id). -/
def tasksCollection_post (st : Store) (uid newId : Nat) (title : String)
    (description : Option String) (priority estimate_minutes : Option Nat)
    (due_date : Option String) (parent_id : Option String) (completed : Bool)
    (now : Nat) : Except String (Store × Task) :=
  match oid parent_id with
  | .error e => .error e
  | .ok parent_oid =>
    let doc := newTaskDoc uid title description priority estimate_minutes
      due_date parent_oid completed now
    match parent_oid with
    | some p =>
      match findOwned st p uid with
      | some _ => .ok (st ++ [(newId, doc)], doc)
      | none => .error "Parent task not found or not owned by user."
    | none => .ok (st ++ [(newId, doc)], doc)

/-- The sparse patch payload of `TaskResource.patch`: `some` marks a field
present in the request body (`"field" in updates`). -/
structure Updates where
  title : Option String
  description : Option (Option String)
  priority : Option (Option Nat)
  estimate_minutes : Option (Option Nat)
  due_date : Option (Option String)
  completed : Option Bool
  parent_id : Option (Option String)
deriving Repr, DecidableEq

/-- A patch payload with every field absent. -/
def Updates.empty : Updates := ⟨none, none, none, none, none, none, none⟩

/-- The `$set` document of `TaskResource.patch` (tasks.py lines 495-520)
applied to the found document: each present field overwrites, `completed`
also writes `completed_at`, `updated_at` is always refreshed;
`parentField = some np` records that `parent_id` was present and resolved
to `np`. -/
def applySetOps (doc : Task) (u : Updates) (parentField : Option (Option Nat))
    (now : Nat) : Task :=
  { doc with
    title := u.title.getD doc.title
    description := u.description.getD doc.description
    priority := u.priority.getD doc.priority
    estimate_minutes := u.estimate_minutes.getD doc.estimate_minutes
    due_date := u.due_date.getD doc.due_date
    completed := u.completed.getD doc.completed
    completed_at :=
      match u.completed with
      | some b => if b then some now else none
      | none => doc.completed_at
    parent_id := parentField.getD doc.parent_id
    updated_at := now }

/-- `tasks.update_one({"_id": oid, "user_id": uid}, {"$set": ...})` with the
fully-applied replacement task (keys are unique, so the single matching
record is replaced). -/
def updateOwned (st : Store) (tid uid : Nat) (nt : Task) : Store :=
  st.map fun p => if p.1 == tid && p.2.user_id == uid then (p.1, nt) else p

/-- Tail of `TaskResource.patch`: write the `$set`, re-fetch by `_id` alone
(line 525) and return; the re-fetch cannot miss, the error branch is the
model's rendering of `_serialize_task(None)` crashing. -/
def finishPatch (st : Store) (tid uid : Nat) (nt : Task) :
    Option (Except String (Store × Task)) :=
  match lookupKey (updateOwned st tid uid nt) tid with
  | some t => some (.ok (updateOwned st tid uid nt, t))
  | none => some (.error "unreachable: updated task vanished")

/-- `TaskResource.patch` (tasks.py lines 474-526). -/
def taskResource_patch (fuel : Nat) (st : Store) (uid : Nat) (task_id : String)
    (u : Updates) (now : Nat) : Option (Except String (Store × Task)) :=
  match oid (some task_id) with
  | .error e => some (.error e)
  | .ok none => some (.error "Invalid task id.")
  | .ok (some tid) =>
    match findOwned st tid uid with
    | none => some (.error "Task not found.")
    | some doc =>
      match u.parent_id with
      | none => finishPatch st tid uid (applySetOps doc u none now)
      | some pval =>
        match oid pval with
        | .error e => some (.error e)
        | .ok new_parent_oid =>
          match new_parent_oid with
          | some p =>
            match findOwned st p uid with
            | none => some (.error "Parent task not found or not owned by user.")
            | some _ =>
              match prevent_circular_parent fuel st uid tid new_parent_oid with
              | none => none
              | some (.error e) => some (.error e)
              | some (.ok _) =>
                finishPatch st tid uid (applySetOps doc u (some new_parent_oid) now)
          | none =>
            match prevent_circular_parent fuel st uid tid none with
            | none => none
            | some (.error e) => some (.error e)
            | some (.ok _) => finishPatch st tid uid (applySetOps doc u (some none) now)

/-- `TaskResource.delete` (tasks.py lines 530-564): on success returns the
new store (the handler's body is empty, 204). -/
def taskResource_delete (fuel : Nat) (st : Store) (uid : Nat) (task_id : String)
    (cascade : Bool) : Option (Except String Store) :=
  match oid (some task_id) with
  | .error e => some (.error e)
  | .ok none => some (.error "Invalid task id.")
  | .ok (some tid) =>
    match findOwned st tid uid with
    | none => some (.error "Task not found.")
    | some _ =>
      if cascade then
        match collect_descendants fuel st uid tid with
        | none => none
        | some ids =>
          some (.ok (st.filter fun p => !(ids.contains p.1 && p.2.user_id == uid)))
      else
        if has_children st uid tid then
          some (.error "Task has subtasks. Use cascade=true to delete with descendants.")
        else
          some (.ok (st.filter fun p => !(p.1 == tid && p.2.user_id == uid)))

/-- The `$set` of `TaskComplete.post`: one shared timestamp for the batch. -/
def markCompleted (t : Task) (whenTs : Nat) : Task :=
  { t with completed := true, completed_at := some whenTs, updated_at := whenTs }

/-- `TaskComplete.post` (tasks.py lines 573-602). -/
def taskComplete_post (fuel : Nat) (st : Store) (uid : Nat) (task_id : String)
    (now : Nat) : Option (Except String (Store × Task)) :=
  match oid (some task_id) with
  | .error e => some (.error e)
  | .ok none => some (.error "Invalid task id.")
  | .ok (some tid) =>
    match findOwned st tid uid with
    | none => some (.error "Task not found.")
    | some _ =>
      match collect_descendants fuel st uid tid with
      | none => none
      | some ids =>
        match lookupKey (st.map fun p =>
            if ids.contains p.1 && p.2.user_id == uid
            then (p.1, markCompleted p.2 now) else p) tid with
        | some t =>
          some (.ok (st.map fun p =>
            if ids.contains p.1 && p.2.user_id == uid
            then (p.1, markCompleted p.2 now) else p, t))
        | none => some (.error "unreachable: updated task vanished")

/-- A task with its recursively-nested subtasks (`_build_subtree`). -/
inductive TaskTree where
  | node : Task → List TaskTree → TaskTree
deriving Repr

/-- `fetch_children` inside `_build_subtree` (tasks.py lines 219-226), with
fuel bounding the recursion depth. -/
def fetchChildren : Nat → Store → Nat → Nat → Option (List TaskTree)
  | 0, _, _, _ => none
  | fuel + 1, st, uid, parent =>
    (st.filter fun p => p.2.parent_id == some parent && p.2.user_id == uid).mapM
      fun p => (fetchChildren fuel st uid p.1).map (TaskTree.node p.2)

/-- `_build_subtree(user_id, root_id)` (tasks.py lines 210-230): the root is
looked up (owner-scoped) before any recursion. -/
def build_subtree (fuel : Nat) (st : Store) (uid root : Nat) :
    Option (Except String TaskTree) :=
  match findOwned st root uid with
  | none => some (.error "Task not found.")
  | some t => (fetchChildren fuel st uid root).map fun subs => .ok (.node t subs)

/-- `TaskResource.get` (tasks.py lines 446-469); a plain get is returned as
a leaf `TaskTree` (the serialized task without subtasks). -/
def taskResource_get (fuel : Nat) (st : Store) (uid : Nat) (task_id : String)
    (include_subtasks : Bool) : Option (Except String TaskTree) :=
  match oid (some task_id) with
  | .error e => some (.error e)
  | .ok none => some (.error "Invalid task id.")
  | .ok (some tid) =>
    if include_subtasks then build_subtree fuel st uid tid
    else
      match findOwned st tid uid with
      | none => some (.error "Task not found.")
      | some t => some (.ok (.node t []))

/-- A fresh id for `insert_one`: one more than the largest key in use. -/
def freshId (st : Store) : Nat := (st.map Prod.fst).foldr max 0 + 1

/-- One public mutating request, with the caller's resolved owner id, the
request payload, the handler's clock reading, and (for the handlers that
traverse the tree) the traversal fuel. -/
inductive Op where
  | create (uid : Nat) (title : String) (description : Option String)
      (priority estimate_minutes : Option Nat) (due_date : Option String)
      (parent_id : Option String) (completed : Bool) (now : Nat)
  | update (fuel uid : Nat) (task_id : String) (u : Updates) (now : Nat)
  | destroy (fuel uid : Nat) (task_id : String) (cascade : Bool)
  | complete (fuel uid : Nat) (task_id : String) (now : Nat)
deriving Repr

/-- The store after one request: a failed (or non-terminating) handler
leaves the store untouched — every handler performs its writes only after
all of its checks have passed. -/
def runOp (st : Store) (o : Op) : Store :=
  match o with
  | .create uid title d pr em dd pid c now =>
    match tasksCollection_post st uid (freshId st) title d pr em dd pid c now with
    | .ok (st', _) => st'
    | .error _ => st
  | .update fuel uid task_id u now =>
    match taskResource_patch fuel st uid task_id u now with
    | some (.ok (st', _)) => st'
    | _ => st
  | .destroy fuel uid task_id cascade =>
    match taskResource_delete fuel st uid task_id cascade with
    | some (.ok st') => st'
    | _ => st
  | .complete fuel uid task_id now =>
    match taskComplete_post fuel st uid task_id now with
    | some (.ok (st', _)) => st'
    | _ => st

/-- The store after a sequence of requests, starting from `st`. -/
def runOps (ops : List Op) (st : Store) : Store := ops.foldl runOp st

/-- Whether a request is a create or an update (the mutations C1 ranges
over). -/
def Op.isCreateOrUpdate : Op → Prop
  | .create .. => True
  | .update .. => True
  | _ => False

/-! ### The parent graph -/

/-- One downward edge of the owner-scoped parent graph: `b` is a child of
`a`, i.e. some stored task with id `b`, owned by `uid`, has `parent_id = a`. -/
def childStep (st : Store) (uid : Nat) (a b : Nat) : Prop :=
  ∃ t, (b, t) ∈ st ∧ t.user_id = uid ∧ t.parent_id = some a

/-- No task of any owner is its own proper ancestor. -/
def AcyclicStore (st : Store) : Prop :=
  ∀ uid a, ¬ Relation.TransGen (childStep st uid) a a

/-- Well-formed store: unique ids, and every `parent_id` references a stored
task with the same owner (cross-owner parenting forbidden). -/
def StoreWF (st : Store) : Prop :=
  (st.map Prod.fst).Nodup ∧
  ∀ p ∈ st, ∀ q, p.2.parent_id = some q → ∃ t, (q, t) ∈ st ∧ t.user_id = p.2.user_id

/-! ### Basic store lemmas -/

lemma findOwned_mem {st : Store} {tid uid : Nat} {t : Task}
    (h : findOwned st tid uid = some t) : (tid, t) ∈ st ∧ t.user_id = uid := by
  unfold findOwned at h
  cases hf : st.find? fun p => p.1 == tid && p.2.user_id == uid with
  | none => rw [hf] at h; cases h
  | some e =>
    rw [hf] at h
    have hp := List.find?_some hf
    have hm := List.mem_of_find?_eq_some hf
    simp only [Bool.and_eq_true, beq_iff_eq] at hp
    obtain ⟨h1, h2⟩ := hp
    cases h
    constructor
    · have : e = (tid, e.2) := by rw [← h1]
      rw [← this]; exact hm
    · exact h2

lemma findOwned_eq_none {st : Store} {tid uid : Nat}
    (h : ∀ p ∈ st, ¬(p.1 = tid ∧ p.2.user_id = uid)) :
    findOwned st tid uid = none := by
  unfold findOwned
  rw [List.find?_eq_none.mpr]
  · rfl
  · intro p hp
    simp only [Bool.and_eq_true, beq_iff_eq]
    intro hc
    exact h p hp hc

lemma keyUnique {st : Store} (hnd : (st.map Prod.fst).Nodup) {k : Nat} {x y : Task}
    (hx : (k, x) ∈ st) (hy : (k, y) ∈ st) : x = y := by
  induction st with
  | nil => cases hx
  | cons a rest ih =>
    simp only [List.map_cons, List.nodup_cons] at hnd
    rcases List.mem_cons.mp hx with rfl | hx'
    · rcases List.mem_cons.mp hy with h | hy'
      · injection h with h1 h2; exact h2.symm
      · exact absurd (List.mem_map.mpr ⟨(k, y), hy', rfl⟩) hnd.1
    · rcases List.mem_cons.mp hy with rfl | hy'
      · exact absurd (List.mem_map.mpr ⟨(k, x), hx', rfl⟩) hnd.1
      · exact ih hnd.2 hx' hy'

lemma lookupKey_eq_of_mem {st : Store} (hnd : (st.map Prod.fst).Nodup)
    {k : Nat} {x : Task} (hm : (k, x) ∈ st) : lookupKey st k = some x := by
  induction st with
  | nil => cases hm
  | cons a rest ih =>
    simp only [List.map_cons, List.nodup_cons] at hnd
    rcases List.mem_cons.mp hm with rfl | hm'
    · unfold lookupKey
      rw [List.find?_cons]
      simp
    · unfold lookupKey
      rw [List.find?_cons]
      have hk : (a.1 == k) = false := by
        simp only [beq_eq_false_iff_ne]
        intro he
        exact hnd.1 (List.mem_map.mpr ⟨(k, x), hm', by rw [he]⟩)
      rw [hk]
      exact ih hnd.2 hm'

lemma findOwned_eq_of_mem {st : Store} (hnd : (st.map Prod.fst).Nodup)
    {k uid : Nat} {x : Task} (hm : (k, x) ∈ st) (hu : x.user_id = uid) :
    findOwned st k uid = some x := by
  induction st with
  | nil => cases hm
  | cons a rest ih =>
    simp only [List.map_cons, List.nodup_cons] at hnd
    rcases List.mem_cons.mp hm with rfl | hm'
    · unfold findOwned
      rw [List.find?_cons]
      simp [hu]
    · unfold findOwned
      rw [List.find?_cons]
      have hk : (a.1 == k && a.2.user_id == uid) = false := by
        have : (a.1 == k) = false := by
          simp only [beq_eq_false_iff_ne]
          intro he
          exact hnd.1 (List.mem_map.mpr ⟨(k, x), hm', by rw [he]⟩)
        simp [this]
      rw [hk]
      exact ih hnd.2 hm'

lemma mem_childrenIds {st : Store} {uid cur b : Nat} :
    b ∈ childrenIds st uid cur ↔ childStep st uid cur b := by
  unfold childrenIds childStep
  constructor
  · intro h
    obtain ⟨p, hp, rfl⟩ := List.mem_map.mp h
    have hm := List.mem_filter.mp hp
    simp only [Bool.and_eq_true, beq_iff_eq] at hm
    exact ⟨p.2, hm.1, hm.2.2, hm.2.1⟩
  · rintro ⟨t, hm, hu, hp⟩
    exact List.mem_map.mpr ⟨(b, t), List.mem_filter.mpr ⟨hm, by simp [hu, hp]⟩, rfl⟩

/-! ### popLast / collectLoop lemmas -/

lemma popLast_eq : ∀ (l : List Nat) {x : Nat} {r : List Nat},
    popLast l = some (x, r) → l = r ++ [x] := by
  intro l
  induction l with
  | nil => intro x r h; cases h
  | cons a t ih =>
    intro x r h
    cases t with
    | nil =>
      unfold popLast at h
      cases h
      rfl
    | cons b u =>
      rw [popLast] at h
      cases hp : popLast (b :: u) with
      | none => rw [hp] at h; cases h
      | some pr =>
        obtain ⟨x', r'⟩ := pr
        rw [hp] at h
        cases h
        have := ih hp
        rw [this]
        rfl

/-- Everything reachable downward from the frontier, and everything already
collected, ends up in a successful `collectLoop` result. -/
lemma collectLoop_sup {st : Store} {uid : Nat} :
    ∀ (fuel : Nat) (frontier collected L : List Nat),
      collectLoop fuel st uid frontier collected = some L →
      (∀ x ∈ frontier, x ∈ collected) →
      (∀ x ∈ collected, x ∈ L) ∧
      (∀ x ∈ frontier, ∀ y, Relation.ReflTransGen (childStep st uid) x y → y ∈ L) := by
  intro fuel
  induction fuel with
  | zero => intro f c L h _; cases h
  | succ n ih =>
    intro f c L h hfc
    cases f with
    | nil =>
      rw [collectLoop] at h
      cases h
      exact ⟨fun x hx => hx, fun x hx => absurd hx (List.not_mem_nil x)⟩
    | cons a fs =>
      rw [collectLoop] at h
      cases hp : popLast (a :: fs) with
      | none => rw [hp] at h; cases h
      | some cr =>
        obtain ⟨cur, rest⟩ := cr
        rw [hp] at h
        have hsplit := popLast_eq _ hp
        have hsub : ∀ x ∈ rest ++ childrenIds st uid cur,
            x ∈ c ++ childrenIds st uid cur := by
          intro x hx
          rcases List.mem_append.mp hx with h1 | h2
          · exact List.mem_append.mpr (Or.inl (hfc x (by
              rw [hsplit]; exact List.mem_append.mpr (Or.inl h1))))
          · exact List.mem_append.mpr (Or.inr h2)
        obtain ⟨hcol, hreach⟩ := ih _ _ _ h hsub
        refine ⟨fun x hx => hcol x (List.mem_append.mpr (Or.inl hx)), ?_⟩
        intro x hx y hy
        have hx' : x ∈ rest ++ [cur] := by rw [← hsplit]; exact hx
        rcases List.mem_append.mp hx' with hxr | hxc
        · exact hreach x (List.mem_append.mpr (Or.inl hxr)) y hy
        · have hxcur : x = cur := by simpa using hxc
          subst hxcur
          rcases Relation.ReflTransGen.cases_head hy with rfl | ⟨z, hstep, hz⟩
          · exact hcol x (List.mem_append.mpr (Or.inl (hfc x hx)))
          · have hzc : z ∈ childrenIds st uid x := mem_childrenIds.mpr hstep
            exact hreach z (List.mem_append.mpr (Or.inr hzc)) y hz

/-- A successful `_collect_descendants` run contains the root and every task
reachable from it along child edges. -/
lemma collect_sup {fuel : Nat} {st : Store} {uid root : Nat} {L : List Nat}
    (h : collect_descendants fuel st uid root = some L) :
    root ∈ L ∧ ∀ y, Relation.ReflTransGen (childStep st uid) root y → y ∈ L := by
  obtain ⟨hcol, hreach⟩ := collectLoop_sup fuel [root] [root] L h (fun x hx => hx)
  exact ⟨hcol root (by simp), hreach root (by simp)⟩

/-! ### C3: collect_descendants on a cyclic stored graph -/

/-- A store holding one task (id 1, owner 7) whose `parent_id` is itself:
the "accidentally cyclic" stored graph of the claim. -/
def selfLoopStore : Store :=
  [(1, ⟨7, "a", none, none, none, none, some 1, false, 0, 0, none⟩)]

/-- C3: the claim says `collect_descendants` terminates on every stored
graph, including a cyclic one, thanks to a defensive visited-set. The
source's loop (tasks.py lines 239-244) keeps NO visited-set: on the store
whose single task is its own parent, the frontier never empties, so the
loop never finishes — for every fuel bound the fueled model runs out of
fuel instead of completing. -/
theorem C3_collect_descendants_no_visited_set :
    ∀ fuel, collect_descendants fuel selfLoopStore 7 1 = none := by
  have key : ∀ fuel collected, collectLoop fuel selfLoopStore 7 [1] collected = none := by
    intro fuel
    induction fuel with
    | zero => intro c; rfl
    | succ n ih => intro c; exact ih (c ++ [1])
  intro fuel
  exact key fuel [1]

/-! ### C4: second cascade delete -/

lemma delete_cascade_ok_inv {fuel : Nat} {st : Store} {uid : Nat}
    {task_id : String} {st' : Store}
    (h : taskResource_delete fuel st uid task_id true = some (.ok st')) :
    ∃ tid doc ids, oid (some task_id) = .ok (some tid) ∧
      findOwned st tid uid = some doc ∧
      collect_descendants fuel st uid tid = some ids ∧
      st' = st.filter fun p => !(ids.contains p.1 && p.2.user_id == uid) := by
  unfold taskResource_delete at h
  split at h
  · simp at h
  · simp at h
  · rename_i tid heq
    split at h
    · simp at h
    · rename_i doc h2
      rw [if_pos rfl] at h
      split at h
      · cases h
      · rename_i ids h3
        simp only [Option.some_inj, Except.ok.injEq] at h
        exact ⟨tid, doc, ids, heq, h2, h3, h.symm⟩

/-- C4 counterexample: a store with the single task id 5 (owner 3). The
first cascade delete empties the store; the second identical call is NOT a
no-op — it fails with the Task-not-found error, contradicting the claim
that it "returns without error". -/
theorem C4_counterexample :
    taskResource_delete 9 [(5, ⟨3, "r", none, none, none, none, none, false, 0, 0, none⟩)]
        3 "000000000000000000000005" true = some (.ok []) ∧
    taskResource_delete 9 ([] : Store) 3 "000000000000000000000005" true
      = some (.error "Task not found.") := by
  constructor <;> rfl

/-- C4 (amended): calling cascade delete a second time after a first
cascade delete removed the root and its descendants is rejected with the
Task-not-found error and performs zero further mutation of the store (the
second request leaves the store exactly as the first left it). -/
theorem C4_second_cascade_not_found (fuel1 fuel2 : Nat) (st st1 : Store)
    (uid : Nat) (task_id : String)
    (h1 : taskResource_delete fuel1 st uid task_id true = some (.ok st1)) :
    taskResource_delete fuel2 st1 uid task_id true = some (.error "Task not found.") ∧
    runOp st1 (.destroy fuel2 uid task_id true) = st1 := by
  obtain ⟨tid, doc, ids, hoid, hfind, hcoll, rfl⟩ := delete_cascade_ok_inv h1
  have hmem := findOwned_mem hfind
  have hroot : tid ∈ ids := (collect_sup hcoll).1
  have habs : findOwned (st.filter fun p => !(ids.contains p.1 && p.2.user_id == uid))
      tid uid = none := by
    apply findOwned_eq_none
    intro p hp hc
    have hf := (List.mem_filter.mp hp).2
    obtain ⟨hpt, hpu⟩ := hc
    rw [hpt, hpu] at hf
    have hcont : ids.contains tid = true := List.elem_iff.mpr hroot
    rw [hcont] at hf
    simp at hf
  have hdel : taskResource_delete fuel2
      (st.filter fun p => !(ids.contains p.1 && p.2.user_id == uid)) uid task_id true
      = some (.error "Task not found.") := by
    simp only [taskResource_delete, hoid, habs]
  refine ⟨hdel, ?_⟩
  simp only [runOp, hdel]

lemma lookupKey_mem {st : Store} {tid : Nat} {t : Task}
    (h : lookupKey st tid = some t) : (tid, t) ∈ st := by
  unfold lookupKey at h
  cases hf : st.find? fun p => p.1 == tid with
  | none => rw [hf] at h; cases h
  | some e =>
    rw [hf] at h
    have hp := List.find?_some hf
    have hm := List.mem_of_find?_eq_some hf
    simp only [beq_iff_eq] at hp
    cases h
    have : e = (tid, e.2) := by rw [← hp]
    rw [← this]
    exact hm

lemma findOwned_none_of_lookupKey_none {st : Store} {tid uid : Nat}
    (h : lookupKey st tid = none) : findOwned st tid uid = none := by
  apply findOwned_eq_none
  intro p hp hc
  unfold lookupKey at h
  cases hf : st.find? fun p => p.1 == tid with
  | some e => rw [hf] at h; cases h
  | none =>
    have := List.find?_eq_none.mp hf p hp
    simp only [beq_iff_eq] at this
    exact this hc.1

/-! ### C8: not-owned behaves exactly like absent -/

/-- C8: for each single-task operation (get with and without subtree
expansion, update, delete with and without cascade, complete), a
well-formed id that references no stored task at all (store `st1`) and one
that references a task owned by a different user (store `st2`) produce the
same observable outcome: the same Task-not-found error, with no way for the
caller to tell the two runs apart. -/
theorem C8_cross_owner_indistinguishable
    (fuel : Nat) (st1 st2 : Store) (uid : Nat) (task_id : String) (tid : Nat)
    (inc cascade : Bool) (u : Updates) (now : Nat) (t2 : Task)
    (hoid : oid (some task_id) = .ok (some tid))
    (h1 : lookupKey st1 tid = none)
    (hnd2 : (st2.map Prod.fst).Nodup)
    (h2 : lookupKey st2 tid = some t2)
    (hother : t2.user_id ≠ uid) :
    (taskResource_get fuel st1 uid task_id inc = some (.error "Task not found.") ∧
     taskResource_get fuel st2 uid task_id inc = some (.error "Task not found.")) ∧
    (taskResource_patch fuel st1 uid task_id u now = some (.error "Task not found.") ∧
     taskResource_patch fuel st2 uid task_id u now = some (.error "Task not found.")) ∧
    (taskResource_delete fuel st1 uid task_id cascade = some (.error "Task not found.") ∧
     taskResource_delete fuel st2 uid task_id cascade = some (.error "Task not found.")) ∧
    (taskComplete_post fuel st1 uid task_id now = some (.error "Task not found.") ∧
     taskComplete_post fuel st2 uid task_id now = some (.error "Task not found.")) := by
  have habs1 : findOwned st1 tid uid = none := findOwned_none_of_lookupKey_none h1
  have habs2 : findOwned st2 tid uid = none := by
    apply findOwned_eq_none
    intro p hp hc
    have hmem2 := lookupKey_mem h2
    have hpt : p = (tid, p.2) := by rw [← hc.1]
    have : p.2 = t2 := keyUnique hnd2 (hpt ▸ hp) hmem2
    rw [this] at hc
    exact hother hc.2
  have hget : ∀ st, findOwned st tid uid = none →
      taskResource_get fuel st uid task_id inc = some (.error "Task not found.") := by
    intro st habs
    cases inc with
    | false => simp only [taskResource_get, hoid, Bool.false_eq_true, if_false, habs]
    | true => simp only [taskResource_get, hoid, if_true, build_subtree, habs]
  have hpatch : ∀ st, findOwned st tid uid = none →
      taskResource_patch fuel st uid task_id u now = some (.error "Task not found.") := by
    intro st habs
    simp only [taskResource_patch, hoid, habs]
  have hdel : ∀ st, findOwned st tid uid = none →
      taskResource_delete fuel st uid task_id cascade = some (.error "Task not found.") := by
    intro st habs
    simp only [taskResource_delete, hoid, habs]
  have hcomp : ∀ st, findOwned st tid uid = none →
      taskComplete_post fuel st uid task_id now = some (.error "Task not found.") := by
    intro st habs
    simp only [taskComplete_post, hoid, habs]
  exact ⟨⟨hget st1 habs1, hget st2 habs2⟩, ⟨hpatch st1 habs1, hpatch st2 habs2⟩,
    ⟨hdel st1 habs1, hdel st2 habs2⟩, ⟨hcomp st1 habs1, hcomp st2 habs2⟩⟩

/-- C8 witness at a concrete input: empty store vs a store whose task id 2
belongs to user 9, caller is user 1. -/
theorem C8_witness :
    (taskResource_get 3 [] 1 "000000000000000000000002" true
        = some (.error "Task not found.") ∧
     taskResource_get 3 [(2, ⟨9, "x", none, none, none, none, none, false, 0, 0, none⟩)]
        1 "000000000000000000000002" true = some (.error "Task not found.")) ∧
    (taskResource_patch 3 [] 1 "000000000000000000000002" Updates.empty 5
        = some (.error "Task not found.") ∧
     taskResource_patch 3 [(2, ⟨9, "x", none, none, none, none, none, false, 0, 0, none⟩)]
        1 "000000000000000000000002" Updates.empty 5 = some (.error "Task not found.")) ∧
    (taskResource_delete 3 [] 1 "000000000000000000000002" true
        = some (.error "Task not found.") ∧
     taskResource_delete 3 [(2, ⟨9, "x", none, none, none, none, none, false, 0, 0, none⟩)]
        1 "000000000000000000000002" true = some (.error "Task not found.")) ∧
    (taskComplete_post 3 [] 1 "000000000000000000000002" 5
        = some (.error "Task not found.") ∧
     taskComplete_post 3 [(2, ⟨9, "x", none, none, none, none, none, false, 0, 0, none⟩)]
        1 "000000000000000000000002" 5 = some (.error "Task not found.")) :=
  C8_cross_owner_indistinguishable 3 [] [(2, ⟨9, "x", none, none, none, none, none, false, 0, 0, none⟩)]
    1 "000000000000000000000002" 2 true true Updates.empty 5
    ⟨9, "x", none, none, none, none, none, false, 0, 0, none⟩
    (by rfl) (by rfl) (by simp) (by rfl) (by decide)

/-! ### C10: null-like id strings -/

lemma updateOwned_keys (st : Store) (tid uid : Nat) (nt : Task) :
    (updateOwned st tid uid nt).map Prod.fst = st.map Prod.fst := by
  unfold updateOwned
  rw [List.map_map]
  apply List.map_congr_left
  intro p _
  simp only [Function.comp_apply]
  split <;> rfl

lemma lookupKey_updateOwned {st : Store} {tid uid : Nat} {doc : Task}
    (hnd : (st.map Prod.fst).Nodup) (hdoc : findOwned st tid uid = some doc)
    (nt : Task) :
    lookupKey (updateOwned st tid uid nt) tid = some nt := by
  obtain ⟨hmem, hu⟩ := findOwned_mem hdoc
  have hm' : (tid, nt) ∈ updateOwned st tid uid nt := by
    unfold updateOwned
    refine List.mem_map.mpr ⟨(tid, doc), hmem, ?_⟩
    simp [hu]
  apply lookupKey_eq_of_mem ?_ hm'
  rw [updateOwned_keys]
  exact hnd

/-- C10: id-valued strings arriving at the interface are stripped of
surrounding whitespace, and the strings `""`, `"null"` and `"None"` parse
to the null identifier instead of being rejected; consequently an update
whose `parent_id` strips to one of those values re-roots the task (its
stored `parent_id` becomes null) instead of failing validation. -/
theorem C10_null_like_ids_reroot
    (fuel : Nat) (st : Store) (uid : Nat) (task_id : String) (tid : Nat)
    (doc : Task) (u : Updates) (pstr : String) (now : Nat)
    (hnd : (st.map Prod.fst).Nodup)
    (hoid : oid (some task_id) = .ok (some tid))
    (hdoc : findOwned st tid uid = some doc)
    (hup : u.parent_id = some (some pstr))
    (hnull : pyStrip pstr = "" ∨ pyStrip pstr = "null" ∨ pyStrip pstr = "None") :
    (∀ s : String, (pyStrip s = "" ∨ pyStrip s = "null" ∨ pyStrip s = "None") →
       oid (some s) = .ok none) ∧
    taskResource_patch fuel st uid task_id u now =
      some (.ok (updateOwned st tid uid (applySetOps doc u (some none) now),
                 applySetOps doc u (some none) now)) ∧
    (applySetOps doc u (some none) now).parent_id = none := by
  have hoidnull : ∀ s : String,
      (pyStrip s = "" ∨ pyStrip s = "null" ∨ pyStrip s = "None") →
      oid (some s) = .ok none := by
    intro s hs
    simp only [oid]
    rw [if_pos hs]
  refine ⟨hoidnull, ?_, ?_⟩
  · have hlook := lookupKey_updateOwned hnd hdoc (applySetOps doc u (some none) now)
    simp only [taskResource_patch, hoid, hdoc, hup, hoidnull pstr hnull,
      prevent_circular_parent, finishPatch, hlook]
  · simp [applySetOps]

/-- C10 witness: patching task 1 (owner 4) with `parent_id = " null "`
re-roots it. -/
theorem C10_witness :
    (∀ s : String, (pyStrip s = "" ∨ pyStrip s = "null" ∨ pyStrip s = "None") →
       oid (some s) = .ok none) ∧
    taskResource_patch 3 [(1, ⟨4, "x", none, none, none, none, some 9, false, 0, 0, none⟩)]
        4 "000000000000000000000001"
        ⟨none, none, none, none, none, none, some (some " null ")⟩ 8 =
      some (.ok (updateOwned [(1, ⟨4, "x", none, none, none, none, some 9, false, 0, 0, none⟩)]
          1 4 (applySetOps ⟨4, "x", none, none, none, none, some 9, false, 0, 0, none⟩
            ⟨none, none, none, none, none, none, some (some " null ")⟩ (some none) 8),
        applySetOps ⟨4, "x", none, none, none, none, some 9, false, 0, 0, none⟩
          ⟨none, none, none, none, none, none, some (some " null ")⟩ (some none) 8)) ∧
    (applySetOps ⟨4, "x", none, none, none, none, some 9, false, 0, 0, none⟩
        ⟨none, none, none, none, none, none, some (some " null ")⟩ (some none) 8).parent_id
      = none :=
  C10_null_like_ids_reroot 3 _ 4 "000000000000000000000001" 1 _ _ " null " 8
    (by simp) (by rfl) (by rfl) (by rfl) (by right; left; rfl)

/-- C4 witness: second cascade delete after the first one emptied the
store. -/
theorem C4_witness :
    taskResource_delete 9 ([] : Store) 3 "000000000000000000000005" true
      = some (.error "Task not found.") ∧
    runOp [] (.destroy 9 3 "000000000000000000000005" true) = [] :=
  C4_second_cascade_not_found 9 9
    [(5, ⟨3, "r", none, none, none, none, none, false, 0, 0, none⟩)] [] 3
    "000000000000000000000005" (by rfl)

/-! ### C7: HasChildren vs cascade delete -/

/-- C7: deleting a task that has at least one child with `cascade=false`
fails with the HasChildren error and leaves the store unchanged; the same
call with `cascade=true` deletes exactly the stored entries whose id is in
`collect_descendants(owner, T)` and are owned by the caller, and nothing
else. -/
theorem C7_has_children_blocks_cascade_deletes
    (fuel : Nat) (st : Store) (uid : Nat) (task_id : String) (tid : Nat)
    (doc : Task)
    (hoid : oid (some task_id) = .ok (some tid))
    (hdoc : findOwned st tid uid = some doc)
    (hchild : has_children st uid tid = true) :
    (taskResource_delete fuel st uid task_id false
        = some (.error "Task has subtasks. Use cascade=true to delete with descendants.") ∧
     runOp st (.destroy fuel uid task_id false) = st) ∧
    (∀ ids, collect_descendants fuel st uid tid = some ids →
       taskResource_delete fuel st uid task_id true
         = some (.ok (st.filter fun p => !(ids.contains p.1 && p.2.user_id == uid))) ∧
       ∀ e, e ∈ (st.filter fun p => !(ids.contains p.1 && p.2.user_id == uid)) ↔
          (e ∈ st ∧ ¬(e.1 ∈ ids ∧ e.2.user_id = uid))) := by
  have hblock : taskResource_delete fuel st uid task_id false
      = some (.error "Task has subtasks. Use cascade=true to delete with descendants.") := by
    simp only [taskResource_delete, hoid, hdoc, hchild, Bool.false_eq_true, if_false,
      if_true]
  refine ⟨⟨hblock, by simp only [runOp, hblock]⟩, ?_⟩
  intro ids hcoll
  refine ⟨by simp only [taskResource_delete, hoid, hdoc, hcoll, if_true], ?_⟩
  intro e
  rw [List.mem_filter]
  simp
  intro _
  tauto

/-- C7 witness: owner 7, task 1 with child 2. -/
theorem C7_witness :
    (taskResource_delete 10 [(1, ⟨7, "a", none, none, none, none, none, false, 0, 0, none⟩),
        (2, ⟨7, "b", none, none, none, none, some 1, false, 0, 0, none⟩)]
        7 "000000000000000000000001" false
      = some (.error "Task has subtasks. Use cascade=true to delete with descendants.")) ∧
    (taskResource_delete 10 [(1, ⟨7, "a", none, none, none, none, none, false, 0, 0, none⟩),
        (2, ⟨7, "b", none, none, none, none, some 1, false, 0, 0, none⟩)]
        7 "000000000000000000000001" true = some (.ok [])) :=
  ⟨(C7_has_children_blocks_cascade_deletes 10 _ 7 _ 1 _ (by rfl) (by rfl) (by rfl)).1.1,
   ((C7_has_children_blocks_cascade_deletes 10 _ 7 _ 1 _ (by rfl) (by rfl) (by rfl)).2
      [1, 2] (by rfl)).1⟩

/-! ### C6: cascade complete -/

lemma collectLoop_owned {st : Store} {uid : Nat} :
    ∀ (fuel : Nat) (frontier collected L : List Nat),
      collectLoop fuel st uid frontier collected = some L →
      (∀ x ∈ frontier, ∃ t, (x, t) ∈ st ∧ t.user_id = uid) →
      (∀ x ∈ collected, ∃ t, (x, t) ∈ st ∧ t.user_id = uid) →
      ∀ x ∈ L, ∃ t, (x, t) ∈ st ∧ t.user_id = uid := by
  intro fuel
  induction fuel with
  | zero => intro f c L h _ _; cases h
  | succ n ih =>
    intro f c L h hf hc
    cases f with
    | nil => rw [collectLoop] at h; cases h; exact hc
    | cons a fs =>
      rw [collectLoop] at h
      cases hp : popLast (a :: fs) with
      | none => rw [hp] at h; cases h
      | some cr =>
        obtain ⟨cur, rest⟩ := cr
        rw [hp] at h
        have hsplit := popLast_eq _ hp
        have hkids : ∀ x ∈ childrenIds st uid cur, ∃ t, (x, t) ∈ st ∧ t.user_id = uid := by
          intro x hx
          obtain ⟨t, hm, hu, _⟩ := mem_childrenIds.mp hx
          exact ⟨t, hm, hu⟩
        apply ih _ _ _ h
        · intro x hx
          rcases List.mem_append.mp hx with h1 | h2
          · exact hf x (by rw [hsplit]; exact List.mem_append.mpr (Or.inl h1))
          · exact hkids x h2
        · intro x hx
          rcases List.mem_append.mp hx with h1 | h2
          · exact hc x h1
          · exact hkids x h2

lemma collect_owned {fuel : Nat} {st : Store} {uid root : Nat} {L : List Nat}
    (h : collect_descendants fuel st uid root = some L)
    (hr : ∃ t, (root, t) ∈ st ∧ t.user_id = uid) :
    ∀ x ∈ L, ∃ t, (x, t) ∈ st ∧ t.user_id = uid :=
  collectLoop_owned fuel [root] [root] L h
    (fun x hx => by
      have hxr : x = root := by simpa using hx
      rw [hxr]; exact hr)
    (fun x hx => by
      have hxr : x = root := by simpa using hx
      rw [hxr]; exact hr)

lemma lookupKey_map_keyPreserving {st : Store} {f : (Nat × Task) → (Nat × Task)}
    (hk : ∀ p, (f p).1 = p.1) (k : Nat) :
    lookupKey (st.map f) k = ((st.find? fun p => p.1 == k).map f).map Prod.snd := by
  unfold lookupKey
  rw [List.find?_map]
  have : ((fun (q : Nat × Task) => q.1 == k) ∘ f) = fun p => p.1 == k := by
    funext p
    simp [Function.comp, hk]
  rw [this]

/-- C6: a successful complete marks exactly the ids in
`collect_descendants(owner, T)` — each of them gets `completed = true` and
`completed_at = updated_at = now` for the one shared timestamp — and every
other stored task is untouched; the handler returns the re-fetched root. -/
theorem C6_cascade_complete_exact
    (fuel : Nat) (st : Store) (uid : Nat) (task_id : String) (tid : Nat)
    (base : Task) (ids : List Nat) (now : Nat)
    (hnd : (st.map Prod.fst).Nodup)
    (hoid : oid (some task_id) = .ok (some tid))
    (hbase : findOwned st tid uid = some base)
    (hcoll : collect_descendants fuel st uid tid = some ids) :
    taskComplete_post fuel st uid task_id now =
      some (.ok (st.map fun p => if ids.contains p.1 && p.2.user_id == uid
          then (p.1, markCompleted p.2 now) else p,
        markCompleted base now)) ∧
    (∀ id', id' ∈ ids →
       lookupKey (st.map fun p => if ids.contains p.1 && p.2.user_id == uid
           then (p.1, markCompleted p.2 now) else p) id'
         = (lookupKey st id').map (markCompleted · now)) ∧
    (∀ id', id' ∉ ids →
       lookupKey (st.map fun p => if ids.contains p.1 && p.2.user_id == uid
           then (p.1, markCompleted p.2 now) else p) id'
         = lookupKey st id') := by
  have hmem := findOwned_mem hbase
  have howned := collect_owned hcoll ⟨base, hmem.1, hmem.2⟩
  have hk : ∀ p : Nat × Task,
      ((if ids.contains p.1 && p.2.user_id == uid
        then (p.1, markCompleted p.2 now) else p)).1 = p.1 := by
    intro p; split <;> rfl
  have hin : ∀ id', id' ∈ ids →
      lookupKey (st.map fun p => if ids.contains p.1 && p.2.user_id == uid
          then (p.1, markCompleted p.2 now) else p) id'
        = (lookupKey st id').map (markCompleted · now) := by
    intro id' hid
    rw [lookupKey_map_keyPreserving hk]
    unfold lookupKey
    cases hf : st.find? fun p => p.1 == id' with
    | none => rfl
    | some e =>
      have hp := List.find?_some hf
      have hm := List.mem_of_find?_eq_some hf
      simp only [beq_iff_eq] at hp
      obtain ⟨t, hmt, hut⟩ := howned id' hid
      have he : e = (id', e.2) := by rw [← hp]
      have het : e.2 = t := keyUnique hnd (he ▸ hm) hmt
      have hpos1 : e.1 ∈ ids := by rw [hp]; exact hid
      have hpos2 : e.2.user_id = uid := by rw [het]; exact hut
      simp [hpos1, hpos2]
  have hout : ∀ id', id' ∉ ids →
      lookupKey (st.map fun p => if ids.contains p.1 && p.2.user_id == uid
          then (p.1, markCompleted p.2 now) else p) id'
        = lookupKey st id' := by
    intro id' hid
    rw [lookupKey_map_keyPreserving hk]
    unfold lookupKey
    cases hf : st.find? fun p => p.1 == id' with
    | none => rfl
    | some e =>
      have hp := List.find?_some hf
      simp only [beq_iff_eq] at hp
      have hni : e.1 ∉ ids := by rw [hp]; exact hid
      simp [hni]
  have hroot : tid ∈ ids := (collect_sup hcoll).1
  have hlook : lookupKey st tid = some base := lookupKey_eq_of_mem hnd hmem.1
  have hfin : lookupKey (st.map fun p => if ids.contains p.1 && p.2.user_id == uid
      then (p.1, markCompleted p.2 now) else p) tid = some (markCompleted base now) := by
    rw [hin tid hroot, hlook]
    rfl
  refine ⟨?_, hin, hout⟩
  simp only [taskComplete_post, hoid, hbase, hcoll, hfin]

/-- C6 witness: completing task 1 (owner 7) with child 2 at timestamp 9. -/
theorem C6_witness :
    taskComplete_post 10 [(1, ⟨7, "a", none, none, none, none, none, false, 0, 0, none⟩),
        (2, ⟨7, "b", none, none, none, none, some 1, false, 0, 0, none⟩)]
        7 "000000000000000000000001" 9 =
      some (.ok ([(1, ⟨7, "a", none, none, none, none, none, true, 0, 9, some 9⟩),
          (2, ⟨7, "b", none, none, none, none, some 1, true, 0, 9, some 9⟩)],
        ⟨7, "a", none, none, none, none, none, true, 0, 9, some 9⟩)) :=
  (C6_cascade_complete_exact 10 _ 7 _ 1
    ⟨7, "a", none, none, none, none, none, false, 0, 0, none⟩ [1, 2] 9
    (by simp) (by rfl) (by rfl) (by rfl)).1

/-! ### C9: literal matching of q -/

/-- The spec's matching predicate, in its own words: the needle occurs
literally, case-insensitively, as a contiguous substring of the haystack. -/
def litCI (needle hay : String) : Bool :=
  decide (List.IsInfix (needle.data.map Char.toLower) (hay.data.map Char.toLower))

lemma decode_cons_escaped (c : Char) (rest : List Char) (hna : c.isAlphanum = false) :
    decodeLiteralPattern ('\\' :: c :: rest) = (decodeLiteralPattern rest).map (c :: ·) := by
  rw [decodeLiteralPattern.eq_def]
  show (if c.isAlphanum = true then none
    else (decodeLiteralPattern rest).map (c :: ·)) = _
  rw [hna]
  simp

lemma decode_cons_plain (c : Char) (rest : List Char) (hbs : ¬(c = '\\'))
    (hmeta : c ∉ regexMeta) :
    decodeLiteralPattern (c :: rest) = (decodeLiteralPattern rest).map (c :: ·) := by
  rw [decodeLiteralPattern.eq_def]
  show (if c = '\\' then
      (match rest with
       | [] => none
       | c2 :: rest2 =>
         if c2.isAlphanum = true then none
         else (decodeLiteralPattern rest2).map (c2 :: ·))
    else if c ∈ regexMeta then none
    else (decodeLiteralPattern rest).map (c :: ·))
    = (decodeLiteralPattern rest).map (c :: ·)
  rw [if_neg hbs, if_neg hmeta]

lemma decode_reEscape_aux : ∀ l : List Char,
    decodeLiteralPattern (l.foldr (fun c acc =>
      (if c ∈ reSpecialChars then ['\\', c] else [c]) ++ acc) []) = some l := by
  intro l
  induction l with
  | nil => rfl
  | cons c t ih =>
    simp only [List.foldr_cons]
    by_cases hc : c ∈ reSpecialChars
    · rw [if_pos hc]
      have hna : c.isAlphanum = false := by
        have hall : reSpecialChars.all (fun c => !c.isAlphanum) = true := by decide
        simpa using List.all_eq_true.mp hall c hc
      simp only [List.cons_append, List.nil_append]
      rw [decode_cons_escaped c _ hna, ih]
      rfl
    · rw [if_neg hc]
      have hbs : ¬(c = '\\') := fun h => hc (h ▸ (by decide : '\\' ∈ reSpecialChars))
      have hmeta : c ∉ regexMeta := fun h => by
        have hsub : regexMeta.all (fun x => decide (x ∈ reSpecialChars)) = true := by decide
        exact hc (by simpa using List.all_eq_true.mp hsub c h)
      simp only [List.cons_append, List.nil_append]
      rw [decode_cons_plain c _ hbs hmeta, ih]
      rfl

lemma decode_reEscape (s : String) :
    decodeLiteralPattern (reEscape s).data = some s.data :=
  decode_reEscape_aux s.data

lemma regexSearchCI_reEscape (s text : String) :
    regexSearchCI (reEscape s) text = some (litCI s text) := by
  unfold regexSearchCI litCI
  rw [decode_reEscape]
  rfl

/-- C9 (amended): with a non-empty free-text value `q`, all regex-special
characters are escaped so matching is literal — but `q` is first STRIPPED
of surrounding whitespace. A task matches the `q` clause of the filter
exactly when the stripped `q` occurs literally, case-insensitively, as a
substring of its title or of its (non-null) description; the remaining
clauses are the owner scope and the default null-parent filter. -/
theorem C9_q_escaped_but_stripped (uid : Nat) (s : String) (hs : ¬(s = ""))
    (t : Task) (flt : Flt)
    (hb : buildFlt uid (some s) none none none none none = .ok flt) :
    docMatches flt t = some ((t.user_id == uid) &&
      (litCI (pyStrip s) t.title ||
        (match t.description with | some d => litCI (pyStrip s) d | none => false)) &&
      (t.parent_id == none)) := by
  simp only [buildFlt, hs, if_false, Except.ok.injEq] at hb
  subst hb
  cases hd : t.description with
  | none =>
    simp [docMatches, qCond, regexSearchCI_reEscape, hd, Option.bind]
  | some d =>
    simp [docMatches, qCond, regexSearchCI_reEscape, hd, Option.bind]

/-- C9 counterexample: `q = " a "` does not occur in `"xax"`, yet the task
titled `"xax"` matches the filter the handler builds for `q = " a "` — the
code matches the stripped text `"a"`, not `q` literally. -/
theorem C9_counterexample :
    buildFlt 1 (some " a ") none none none none none
      = .ok ⟨1, some "a", none, none, none, none, none⟩ ∧
    docMatches ⟨1, some "a", none, none, none, none, none⟩
      ⟨1, "xax", none, none, none, none, none, false, 0, 0, none⟩ = some true ∧
    litCI " a " "xax" = false := by
  refine ⟨by rfl, by rfl, by decide⟩

/-- C9 witness: a task whose description contains `"b"` matches `q = "B"`
(case-insensitively), via the amended characterization. -/
theorem C9_witness :
    docMatches ⟨6, some "B", none, none, none, none, none⟩
      ⟨6, "t", some "abc", none, none, none, none, false, 0, 0, none⟩ =
      some ((6 == 6) && (litCI (pyStrip "B") "t" ||
        (match (some "abc" : Option String) with
          | some d => litCI (pyStrip "B") d | none => false)) &&
        ((none : Option Nat) == none)) :=
  C9_q_escaped_but_stripped 6 "B" (by decide)
    ⟨6, "t", some "abc", none, none, none, none, false, 0, 0, none⟩
    ⟨6, some "B", none, none, none, none, none⟩ (by rfl)

/-! ### C5: pagination metadata -/

/-- C5 counterexample: an empty result set yields `total_pages = 0`, not
the claimed minimum of 1 (the `last_page` field is separately forced to 1). -/
theorem C5_counterexample :
    tasksCollection_get [] 7 none none none none none none "created_at" "desc" 1 20
      = some (.ok ([], ⟨0, 0, 1, 1, 1, none, none⟩)) ∧
    (⟨0, 0, 1, 1, 1, none, none⟩ : PageMeta).total_pages ≠ 1 := by
  refine ⟨by rfl, by decide⟩

/-- C5 (amended): for every list query with a positive page size, the
returned metadata satisfies `total_pages = ceil(total / page_size)` with NO
minimum — in particular an empty result set gives `total = 0`,
`total_pages = 0` and `items = []`, while the separate `last_page` field
(and the page clamp) treat the page count as at least 1. -/
theorem C5_total_pages_ceil_no_minimum
    (st : Store) (uid : Nat) (q : Option String) (completed : Option Bool)
    (priority : Option Nat) (due_before due_after parent_id : Option String)
    (sort_by sort_order : String) (page page_size : Nat)
    (items : List (Nat × Task)) (meta : PageMeta)
    (hps : 0 < page_size)
    (h : tasksCollection_get st uid q completed priority due_before due_after
          parent_id sort_by sort_order page page_size = some (.ok (items, meta))) :
    meta.total_pages = (meta.total + page_size - 1) / page_size ∧
    meta.last_page = max 1 meta.total_pages ∧
    meta.page = max 1 (min page (max 1 meta.total_pages)) ∧
    (meta.total = 0 → meta.total_pages = 0 ∧ meta.last_page = 1 ∧ items = []) := by
  unfold tasksCollection_get at h
  split at h
  · simp at h
  · rename_i flt hb
    split at h
    · cases h
    · rename_i wf hm
      simp only [Option.some_inj, Except.ok.injEq, Prod.mk.injEq] at h
      obtain ⟨hitems, hmeta⟩ := h
      subst hmeta
      rw [if_pos hps]
      set matched := (wf.filter fun pb => pb.2).map Prod.fst with hmatched
      refine ⟨rfl, ?_, rfl, ?_⟩
      · show (if (matched.length + page_size - 1) / page_size = 0 then 1
            else (matched.length + page_size - 1) / page_size)
          = max 1 ((matched.length + page_size - 1) / page_size)
        cases hlp : (matched.length + page_size - 1) / page_size with
        | zero => simp
        | succ n =>
          have h1 : max 1 (n + 1) = n + 1 := Nat.max_eq_right (Nat.succ_le_succ (Nat.zero_le n))
          simp [h1]
      · intro htot
        simp only at htot
        have hm0 : matched = [] := List.length_eq_zero.mp htot
        have hlp0 : (matched.length + page_size - 1) / page_size = 0 := by
          rw [htot, Nat.zero_add]
          exact Nat.div_eq_of_lt (by omega)
        refine ⟨hlp0, by simp [hlp0], ?_⟩
        rw [← hitems, hm0]
        simp [sortWith]

/-- C5 witness: the amended pagination facts at the empty store. -/
theorem C5_witness :
    (⟨0, 0, 1, 1, 1, none, none⟩ : PageMeta).total_pages
      = ((⟨0, 0, 1, 1, 1, none, none⟩ : PageMeta).total + 20 - 1) / 20 ∧
    (⟨0, 0, 1, 1, 1, none, none⟩ : PageMeta).last_page
      = max 1 (⟨0, 0, 1, 1, 1, none, none⟩ : PageMeta).total_pages ∧
    (⟨0, 0, 1, 1, 1, none, none⟩ : PageMeta).page
      = max 1 (min 1 (max 1 (⟨0, 0, 1, 1, 1, none, none⟩ : PageMeta).total_pages)) ∧
    ((⟨0, 0, 1, 1, 1, none, none⟩ : PageMeta).total = 0 →
      (⟨0, 0, 1, 1, 1, none, none⟩ : PageMeta).total_pages = 0 ∧
      (⟨0, 0, 1, 1, 1, none, none⟩ : PageMeta).last_page = 1 ∧
      ([] : List (Nat × Task)) = []) :=
  C5_total_pages_ceil_no_minimum [] 7 none none none none none none
    "created_at" "desc" 1 20 [] ⟨0, 0, 1, 1, 1, none, none⟩ (by decide) (by rfl)

/-! ### Inversion lemmas for the mutating handlers -/

lemma post_ok_inv {st : Store} {uid newId : Nat} {title : String}
    {d : Option String} {pr em : Option Nat} {dd : Option String}
    {pid : Option String} {c : Bool} {now : Nat} {st' : Store} {doc : Task}
    (h : tasksCollection_post st uid newId title d pr em dd pid c now = .ok (st', doc)) :
    st' = st ++ [(newId, doc)] ∧ doc.user_id = uid ∧ doc.completed = c ∧
    doc.completed_at = (if c then some now else none) ∧
    (∀ p, doc.parent_id = some p → ∃ pd, findOwned st p uid = some pd) := by
  unfold tasksCollection_post at h
  split at h
  · cases h
  · rename_i parent_oid hpo
    split at h
    · rename_i p
      split at h
      · rename_i pd hpd
        simp only [Except.ok.injEq, Prod.mk.injEq] at h
        obtain ⟨h1, h2⟩ := h
        subst h2
        refine ⟨h1.symm, rfl, rfl, rfl, ?_⟩
        intro p' hp'
        simp only [newTaskDoc] at hp'
        injection hp' with hpp
        rw [← hpp]
        exact ⟨pd, hpd⟩
      · cases h
    · simp only [Except.ok.injEq, Prod.mk.injEq] at h
      obtain ⟨h1, h2⟩ := h
      subst h2
      refine ⟨h1.symm, rfl, rfl, rfl, ?_⟩
      intro p' hp'
      simp only [newTaskDoc] at hp'
      cases hp'

lemma prevent_circular_ok {fuel : Nat} {st : Store} {uid tid p : Nat}
    (h : prevent_circular_parent fuel st uid tid (some p) = some (.ok ())) :
    ¬(p = tid) ∧ ∃ L, collect_descendants fuel st uid tid = some L ∧ p ∉ L := by
  simp only [prevent_circular_parent] at h
  split at h
  · simp at h
  · rename_i hne
    split at h
    · cases h
    · rename_i L hL
      split at h
      · simp at h
      · rename_i hpL
        exact ⟨hne, L, hL, hpL⟩

lemma patch_ok_inv {fuel : Nat} {st : Store} {uid : Nat} {task_id : String}
    {u : Updates} {now : Nat} {st' : Store} {rt : Task}
    (h : taskResource_patch fuel st uid task_id u now = some (.ok (st', rt))) :
    ∃ tid doc pf,
      oid (some task_id) = .ok (some tid) ∧
      findOwned st tid uid = some doc ∧
      st' = updateOwned st tid uid (applySetOps doc u pf now) ∧
      ((u.parent_id = none ∧ pf = none) ∨
       (∃ pval, u.parent_id = some pval ∧ pf = some none) ∨
       (∃ pval p, u.parent_id = some pval ∧ pf = some (some p) ∧
         (∃ pd, findOwned st p uid = some pd) ∧ ¬(p = tid) ∧
         (∃ L, collect_descendants fuel st uid tid = some L ∧ p ∉ L))) := by
  unfold taskResource_patch at h
  split at h
  · cases h
  · cases h
  · rename_i tid hoid
    split at h
    · cases h
    · rename_i doc hdoc
      split at h
      · -- u.parent_id = none
        rename_i hpid
        unfold finishPatch at h
        split at h
        · rename_i t hlk
          simp only [Option.some_inj, Except.ok.injEq, Prod.mk.injEq] at h
          exact ⟨tid, doc, none, hoid, hdoc, h.1.symm, Or.inl ⟨hpid, rfl⟩⟩
        · cases h
      · rename_i pval hpid
        split at h
        · cases h
        · rename_i npo hnp
          split at h
          · -- npo = some p
            rename_i p
            split at h
            · cases h
            · rename_i pd hpd
              split at h
              · cases h
              · simp at h
              · rename_i val hpc
                cases val
                unfold finishPatch at h
                split at h
                · rename_i t hlk
                  simp only [Option.some_inj, Except.ok.injEq, Prod.mk.injEq] at h
                  obtain ⟨hne, L, hL, hpL⟩ := prevent_circular_ok hpc
                  exact ⟨tid, doc, some (some p), hoid, hdoc, h.1.symm,
                    Or.inr (Or.inr ⟨pval, p, hpid, rfl, ⟨pd, hpd⟩, hne, L, hL, hpL⟩)⟩
                · cases h
          · -- npo = none
            split at h
            · cases h
            · simp at h
            · unfold finishPatch at h
              split at h
              · rename_i t hlk
                simp only [Option.some_inj, Except.ok.injEq, Prod.mk.injEq] at h
                exact ⟨tid, doc, some none, hoid, hdoc, h.1.symm,
                  Or.inr (Or.inl ⟨pval, hpid, rfl⟩)⟩
              · cases h

lemma delete_ok_subset {fuel : Nat} {st : Store} {uid : Nat} {task_id : String}
    {cascade : Bool} {st' : Store}
    (h : taskResource_delete fuel st uid task_id cascade = some (.ok st')) :
    ∀ e ∈ st', e ∈ st := by
  unfold taskResource_delete at h
  split at h
  · cases h
  · cases h
  · rename_i tid hoid
    split at h
    · cases h
    · rename_i doc hdoc
      split at h
      · split at h
        · cases h
        · rename_i ids hcoll
          simp only [Option.some_inj, Except.ok.injEq] at h
          subst h
          intro e he
          exact (List.mem_filter.mp he).1
      · split at h
        · cases h
        · simp only [Option.some_inj, Except.ok.injEq] at h
          subst h
          intro e he
          exact (List.mem_filter.mp he).1

lemma complete_ok_inv {fuel : Nat} {st : Store} {uid : Nat} {task_id : String}
    {now : Nat} {st' : Store} {rt : Task}
    (h : taskComplete_post fuel st uid task_id now = some (.ok (st', rt))) :
    ∃ ids : List Nat, st' = st.map fun p => if ids.contains p.1 && p.2.user_id == uid
        then (p.1, markCompleted p.2 now) else p := by
  unfold taskComplete_post at h
  split at h
  · cases h
  · cases h
  · rename_i tid hoid
    split at h
    · cases h
    · rename_i base hbase
      split at h
      · cases h
      · rename_i ids hcoll
        split at h
        · rename_i t hlk
          simp only [Option.some_inj, Except.ok.injEq, Prod.mk.injEq] at h
          exact ⟨ids, h.1.symm⟩
        · cases h

/-! ### C2: completed ⇔ completed_at invariant -/

/-- The C2 invariant: stored `completed` and `completed_at` agree. -/
def CompletedIff (st : Store) : Prop :=
  ∀ p ∈ st, p.2.completed = false ↔ p.2.completed_at = none

/-- C2: every public mutating operation preserves the invariant
`completed = false ⇔ completed_at = null` (each write that touches
`completed` writes `completed_at` consistently in the same `$set`), and
hence the invariant holds after every request sequence from the empty
store. -/
theorem C2_completed_iff_completed_at :
    (∀ (st : Store) (o : Op), CompletedIff st → CompletedIff (runOp st o)) ∧
    (∀ ops : List Op, CompletedIff (runOps ops [])) := by
  have hstep : ∀ (st : Store) (o : Op), CompletedIff st → CompletedIff (runOp st o) := by
    intro st o hInv
    cases o with
    | create uid title d pr em dd pid c now =>
      show CompletedIff (match tasksCollection_post st uid (freshId st) title d pr em dd pid c now with
        | .ok (st', _) => st' | .error _ => st)
      cases hres : tasksCollection_post st uid (freshId st) title d pr em dd pid c now with
      | error e => exact hInv
      | ok pr' =>
        obtain ⟨st', doc⟩ := pr'
        obtain ⟨hst, _, hc, hca, _⟩ := post_ok_inv hres
        subst hst
        intro p hp
        rcases List.mem_append.mp hp with hp1 | hp2
        · exact hInv p hp1
        · have hpe : p = (freshId st, doc) := by simpa using hp2
          rw [hpe]
          rw [hc, hca]
          cases c <;> simp
    | update fuel uid task_id u now =>
      show CompletedIff (match taskResource_patch fuel st uid task_id u now with
        | some (.ok (st', _)) => st' | _ => st)
      cases hres : taskResource_patch fuel st uid task_id u now with
      | none => exact hInv
      | some r =>
        cases r with
        | error e => exact hInv
        | ok pr' =>
          obtain ⟨st', rt⟩ := pr'
          obtain ⟨tid, doc, pf, hoid, hdoc, hst, _⟩ := patch_ok_inv hres
          subst hst
          intro p hp
          unfold updateOwned at hp
          obtain ⟨q, hq, hfq⟩ := List.mem_map.mp hp
          by_cases hcond : (q.1 == tid && q.2.user_id == uid) = true
          · rw [if_pos hcond] at hfq
            rw [← hfq]
            obtain ⟨hmem, _⟩ := findOwned_mem hdoc
            have hdocInv := hInv (tid, doc) hmem
            unfold applySetOps
            cases hcu : u.completed with
            | some b => cases b <;> simp
            | none => simpa using hdocInv
          · rw [if_neg hcond] at hfq
            rw [← hfq]
            exact hInv q hq
    | destroy fuel uid task_id cascade =>
      show CompletedIff (match taskResource_delete fuel st uid task_id cascade with
        | some (.ok st') => st' | _ => st)
      cases hres : taskResource_delete fuel st uid task_id cascade with
      | none => exact hInv
      | some r =>
        cases r with
        | error e => exact hInv
        | ok st' =>
          have hsub := delete_ok_subset hres
          intro p hp
          exact hInv p (hsub p hp)
    | complete fuel uid task_id now =>
      show CompletedIff (match taskComplete_post fuel st uid task_id now with
        | some (.ok (st', _)) => st' | _ => st)
      cases hres : taskComplete_post fuel st uid task_id now with
      | none => exact hInv
      | some r =>
        cases r with
        | error e => exact hInv
        | ok pr' =>
          obtain ⟨st', rt⟩ := pr'
          obtain ⟨ids, hst⟩ := complete_ok_inv hres
          subst hst
          intro p hp
          obtain ⟨q, hq, hfq⟩ := List.mem_map.mp hp
          by_cases hcond : (ids.contains q.1 && q.2.user_id == uid) = true
          · rw [if_pos hcond] at hfq
            rw [← hfq]
            simp [markCompleted]
          · rw [if_neg hcond] at hfq
            rw [← hfq]
            exact hInv q hq
  refine ⟨hstep, ?_⟩
  intro ops
  have hrun : ∀ (l : List Op) (st : Store), CompletedIff st → CompletedIff (runOps l st) := by
    intro l
    induction l with
    | nil => intro st h; exact h
    | cons o rest ih => intro st h; exact ih _ (hstep st o h)
  exact hrun ops [] (fun p hp => absurd hp (List.not_mem_nil p))

/-- C2 witness: the invariant after a concrete create-then-complete
sequence from the empty store. -/
theorem C2_witness :
    CompletedIff (runOps [.create 1 "A" none none none none none false 0,
      .complete 5 1 "000000000000000000000001" 4] []) :=
  C2_completed_iff_completed_at.2 _

/-! ### C1: acyclicity of the parent graph -/

/-- Redirecting the single incoming-edge source of `task` to `p` preserves
acyclicity, provided `p` is not reachable from `task` in the old graph.
`R a b` reads "`b` is a child of `a`"; in `R'` the node `task` has exactly
the parent `p` and all other nodes keep their old parent. -/
lemma no_cycle_redirect {α : Type} {R R' : α → α → Prop} {task p : α}
    (hchar : ∀ a b, R' a b ↔ ((¬(b = task) ∧ R a b) ∨ (b = task ∧ a = p)))
    (hacy : ∀ a, ¬ Relation.TransGen R a a)
    (hnr : ¬ Relation.ReflTransGen R task p) :
    ∀ a, ¬ Relation.TransGen R' a a := by
  have hS : ∀ a c, Relation.ReflTransGen R task a → Relation.ReflTransGen R' a c →
      Relation.ReflTransGen R task c := by
    intro a c hta hac
    revert hta
    induction hac using Relation.ReflTransGen.head_induction_on with
    | refl => intro h; exact h
    | head h' hrest ih =>
      intro hta
      rcases (hchar _ _).mp h' with ⟨hne, hR⟩ | ⟨heq, hap⟩
      · exact ih (hta.tail hR)
      · rw [hap] at hta
        exact absurd hta hnr
  have hB : ∀ a b, Relation.ReflTransGen R' a b →
      Relation.ReflTransGen R a b ∨
      (Relation.ReflTransGen R' a p ∧ Relation.ReflTransGen R task b) := by
    intro a b hab
    induction hab with
    | refl => exact Or.inl Relation.ReflTransGen.refl
    | @tail y z h1 h2 ih =>
      rcases (hchar _ _).mp h2 with ⟨hne, hR⟩ | ⟨heq, hyp⟩
      · rcases ih with hl | ⟨h2', h3'⟩
        · exact Or.inl (hl.tail hR)
        · exact Or.inr ⟨h2', h3'.tail hR⟩
      · subst heq
        rw [hyp] at h1
        exact Or.inr ⟨h1, Relation.ReflTransGen.refl⟩
  intro a hcyc
  obtain ⟨c, hac, hca⟩ := Relation.TransGen.tail'_iff.mp hcyc
  rcases (hchar _ _).mp hca with ⟨hne, hR⟩ | ⟨heq, hcp⟩
  · rcases hB a c hac with h1 | ⟨h2, h3⟩
    · exact hacy a (Relation.TransGen.tail' h1 hR)
    · exact hnr (hS a p (h3.tail hR) h2)
  · subst heq
    rw [hcp] at hac
    exact hnr (hS _ p Relation.ReflTransGen.refl hac)

/-- Adding a fresh sink node `nid` whose parent is an existing node `p`
preserves acyclicity: `nid` has no outgoing child edge and no old edge
reaches it. -/
lemma no_cycle_extend {α : Type} {R R' : α → α → Prop} {nid p : α}
    (hchar : ∀ a b, R' a b ↔ (R a b ∨ (b = nid ∧ a = p)))
    (hacy : ∀ a, ¬ Relation.TransGen R a a)
    (hpn : ¬(p = nid))
    (hno_from : ∀ b, ¬ R nid b)
    (hno_into : ∀ a, ¬ R a nid) :
    ∀ a, ¬ Relation.TransGen R' a a := by
  have hfrom' : ∀ b, ¬ R' nid b := by
    intro b hb
    rcases (hchar _ _).mp hb with hR | ⟨_, hnp⟩
    · exact hno_from b hR
    · exact hpn hnp.symm
  have hB2 : ∀ a b, Relation.ReflTransGen R' a b → ¬(b = nid) →
      Relation.ReflTransGen R a b := by
    intro a b hab
    induction hab with
    | refl => intro _; exact Relation.ReflTransGen.refl
    | @tail y z h1 h2 ih =>
      intro hbn
      rcases (hchar _ _).mp h2 with hR | ⟨hcn, _⟩
      · have hyn : ¬(y = nid) := fun hy => hno_from z (hy ▸ hR)
        exact (ih hyn).tail hR
      · exact absurd hcn hbn
  intro a hcyc
  obtain ⟨c, hac, hca⟩ := Relation.TransGen.tail'_iff.mp hcyc
  rcases (hchar _ _).mp hca with hR | ⟨han, hcp⟩
  · have hcn : ¬(c = nid) := fun hcq => hno_from a (hcq ▸ hR)
    exact hacy a (Relation.TransGen.tail' (hB2 a c hac hcn) hR)
  · subst han
    rw [hcp] at hac
    rcases Relation.ReflTransGen.cases_head hac with heq | ⟨z, hz, _⟩
    · exact hpn heq.symm
    · exact hfrom' z hz

lemma childStep_append {st : Store} {nid : Nat} {d : Task} {uid a b : Nat} :
    childStep (st ++ [(nid, d)]) uid a b ↔
      (childStep st uid a b ∨ (b = nid ∧ d.user_id = uid ∧ d.parent_id = some a)) := by
  unfold childStep
  constructor
  · rintro ⟨t, hm, hu, hp⟩
    rcases List.mem_append.mp hm with h1 | h2
    · exact Or.inl ⟨t, h1, hu, hp⟩
    · have hbt : (b, t) = (nid, d) := by simpa using h2
      injection hbt with e1 e2
      subst e1
      subst e2
      exact Or.inr ⟨rfl, hu, hp⟩
  · rintro (⟨t, hm, hu, hp⟩ | ⟨hb, hu, hp⟩)
    · exact ⟨t, List.mem_append.mpr (Or.inl hm), hu, hp⟩
    · subst hb
      exact ⟨d, List.mem_append.mpr (Or.inr (by simp)), hu, hp⟩

lemma childStep_updateOwned {st : Store} {tid uid : Nat} {doc : Task}
    (hnd : (st.map Prod.fst).Nodup) (hmem : (tid, doc) ∈ st)
    (hown : doc.user_id = uid) (nt : Task) :
    ∀ u' a b, childStep (updateOwned st tid uid nt) u' a b ↔
      ((¬(b = tid) ∧ childStep st u' a b) ∨
       (b = tid ∧ nt.user_id = u' ∧ nt.parent_id = some a)) := by
  intro u' a b
  unfold childStep updateOwned
  constructor
  · rintro ⟨t, hm, hu, hp⟩
    obtain ⟨q, hq, hfq⟩ := List.mem_map.mp hm
    by_cases hcond : (q.1 == tid && q.2.user_id == uid) = true
    · rw [if_pos hcond] at hfq
      injection hfq with e1 e2
      simp only [Bool.and_eq_true, beq_iff_eq] at hcond
      refine Or.inr ⟨by rw [← e1]; exact hcond.1, ?_, ?_⟩
      · rw [e2]; exact hu
      · rw [e2]; exact hp
    · rw [if_neg hcond] at hfq
      subst hfq
      refine Or.inl ⟨?_, t, hq, hu, hp⟩
      intro hb
      subst hb
      have ht : t = doc := keyUnique hnd hq hmem
      exact hcond (by simp [ht, hown])
  · rintro (⟨hbne, t, hm, hu, hp⟩ | ⟨hb, hu, hp⟩)
    · refine ⟨t, ?_, hu, hp⟩
      apply List.mem_map.mpr
      refine ⟨(b, t), hm, ?_⟩
      rw [if_neg]
      simp [hbne]
    · refine ⟨nt, ?_, hu, hp⟩
      rw [hb]
      apply List.mem_map.mpr
      refine ⟨(tid, doc), hmem, ?_⟩
      rw [if_pos (by simp [hown])]

lemma freshId_not_mem (st : Store) : freshId st ∉ st.map Prod.fst := by
  unfold freshId
  intro hmem
  have hle : ∀ (l : List Nat) (k : Nat), k ∈ l → k ≤ l.foldr max 0 := by
    intro l
    induction l with
    | nil => intro k hk; cases hk
    | cons a t ih =>
      intro k hk
      rcases List.mem_cons.mp hk with rfl | hk'
      · exact Nat.le_max_left _ _
      · exact le_trans (ih k hk') (Nat.le_max_right _ _)
  have := hle _ _ hmem
  omega

lemma acyclic_of_subrel {st st' : Store}
    (hsub : ∀ uid a b, childStep st' uid a b → childStep st uid a b)
    (ha : AcyclicStore st) : AcyclicStore st' := by
  intro uid a h
  exact ha uid a (h.mono (hsub uid))

lemma childStep_into_key {st : Store} (hnd : (st.map Prod.fst).Nodup)
    {tid : Nat} {doc : Task} (hmem : (tid, doc) ∈ st) :
    ∀ u' a, childStep st u' a tid ↔ (doc.user_id = u' ∧ doc.parent_id = some a) := by
  intro u' a
  constructor
  · rintro ⟨t, hm, hu, hp⟩
    have ht : t = doc := keyUnique hnd hm hmem
    rw [ht] at hu hp
    exact ⟨hu, hp⟩
  · rintro ⟨hu, hp⟩
    exact ⟨doc, hmem, hu, hp⟩

lemma create_preserves {st st' : Store} {uid newId : Nat} {title : String}
    {d : Option String} {pr em : Option Nat} {dd pid : Option String}
    {c : Bool} {now : Nat} {doc : Task}
    (hwf : StoreWF st) (ha : AcyclicStore st)
    (hfresh : newId ∉ st.map Prod.fst)
    (h : tasksCollection_post st uid newId title d pr em dd pid c now = .ok (st', doc)) :
    StoreWF st' ∧ AcyclicStore st' := by
  obtain ⟨hst, hu, _, _, hpar⟩ := post_ok_inv h
  subst hst
  obtain ⟨hnd, href⟩ := hwf
  constructor
  · constructor
    · rw [List.map_append]
      refine List.Nodup.append hnd (by simp) ?_
      intro x hx hy
      have hxn : x = newId := by simpa using hy
      subst hxn
      exact hfresh hx
    · intro e he q hq
      rcases List.mem_append.mp he with h1 | h2
      · obtain ⟨t, hm, hut⟩ := href e h1 q hq
        exact ⟨t, List.mem_append.mpr (Or.inl hm), hut⟩
      · have hpd : e = (newId, doc) := by simpa using h2
        rw [hpd] at hq
        obtain ⟨pd, hpdq⟩ := hpar q hq
        obtain ⟨hmm, hou⟩ := findOwned_mem hpdq
        refine ⟨pd, List.mem_append.mpr (Or.inl hmm), ?_⟩
        rw [hpd, hou, hu]
  · cases hdp : doc.parent_id with
    | none =>
      apply acyclic_of_subrel ?_ ha
      intro u' a b hstep
      rcases childStep_append.mp hstep with h1 | ⟨_, _, hp2⟩
      · exact h1
      · rw [hdp] at hp2
        cases hp2
    | some p =>
      obtain ⟨pd, hpdq⟩ := hpar p hdp
      obtain ⟨hpmem, hpu⟩ := findOwned_mem hpdq
      have hpkey : p ∈ st.map Prod.fst := List.mem_map.mpr ⟨(p, pd), hpmem, rfl⟩
      intro u'
      by_cases huu : doc.user_id = u'
      · have hchar : ∀ a b, childStep (st ++ [(newId, doc)]) u' a b ↔
            (childStep st u' a b ∨ (b = newId ∧ a = p)) := by
          intro a b
          rw [childStep_append, hdp]
          constructor
          · rintro (h1 | ⟨hb, _, hpp⟩)
            · exact Or.inl h1
            · injection hpp with hpp'
              exact Or.inr ⟨hb, hpp'.symm⟩
          · rintro (h1 | ⟨hb, ha2⟩)
            · exact Or.inl h1
            · exact Or.inr ⟨hb, huu, by rw [ha2]⟩
        have hpn : ¬(p = newId) := by
          intro hpe
          rw [hpe] at hpkey
          exact hfresh hpkey
        have hfrom : ∀ b, ¬ childStep st u' newId b := by
          rintro b ⟨t, hm, hut, hpt⟩
          obtain ⟨tt, htt, _⟩ := href (b, t) hm newId hpt
          exact hfresh (List.mem_map.mpr ⟨(newId, tt), htt, rfl⟩)
        have hinto : ∀ a, ¬ childStep st u' a newId := by
          rintro a ⟨t, hm, _, _⟩
          exact hfresh (List.mem_map.mpr ⟨(newId, t), hm, rfl⟩)
        exact no_cycle_extend hchar (ha u') hpn hfrom hinto
      · intro a hcyc
        apply ha u' a
        apply hcyc.mono
        intro x y hxy
        rcases childStep_append.mp hxy with h1 | ⟨_, hu2, _⟩
        · exact h1
        · exact absurd hu2 huu

lemma updateOwned_pres_owner {st : Store} {tid uid : Nat} {doc nt : Task}
    (_hmem : (tid, doc) ∈ st) (hdocu : doc.user_id = uid)
    (hnt : nt.user_id = doc.user_id) :
    ∀ k (x : Task), (k, x) ∈ st →
      ∃ y, (k, y) ∈ updateOwned st tid uid nt ∧ y.user_id = x.user_id := by
  intro k x hk
  by_cases hcond : (k == tid && x.user_id == uid) = true
  · refine ⟨nt, ?_, ?_⟩
    · exact List.mem_map.mpr ⟨(k, x), hk, by rw [if_pos hcond]⟩
    · simp only [Bool.and_eq_true, beq_iff_eq] at hcond
      rw [hnt, hdocu, hcond.2]
  · exact ⟨x, List.mem_map.mpr ⟨(k, x), hk, by rw [if_neg hcond]⟩, rfl⟩

lemma updateOwned_WF {st : Store} {tid uid : Nat} {doc nt : Task}
    (hnd : (st.map Prod.fst).Nodup)
    (href : ∀ e ∈ st, ∀ q, e.2.parent_id = some q →
      ∃ t, (q, t) ∈ st ∧ t.user_id = e.2.user_id)
    (hmem : (tid, doc) ∈ st) (hown : doc.user_id = uid)
    (hntu : nt.user_id = doc.user_id)
    (hparents : ∀ q', nt.parent_id = some q' →
      ∃ y, (q', y) ∈ st ∧ y.user_id = doc.user_id) :
    StoreWF (updateOwned st tid uid nt) := by
  constructor
  · rw [updateOwned_keys]
    exact hnd
  · intro e he q hq
    obtain ⟨qe, hqe, hfe⟩ := List.mem_map.mp he
    by_cases hcond : (qe.1 == tid && qe.2.user_id == uid) = true
    · rw [if_pos hcond] at hfe
      rw [← hfe] at hq
      obtain ⟨y, hy, hyu⟩ := hparents q hq
      obtain ⟨y', hy', hyu'⟩ := updateOwned_pres_owner hmem hown hntu q y hy
      refine ⟨y', hy', ?_⟩
      rw [hyu', hyu, ← hfe, ← hntu]
    · rw [if_neg hcond] at hfe
      rw [← hfe] at hq ⊢
      obtain ⟨t, ht, htu⟩ := href qe hqe q hq
      obtain ⟨y', hy', hyu'⟩ := updateOwned_pres_owner hmem hown hntu q t ht
      exact ⟨y', hy', by rw [hyu', htu]⟩

lemma update_preserves {fuel : Nat} {st st' : Store} {uid : Nat}
    {task_id : String} {u : Updates} {now : Nat} {rt : Task}
    (hwf : StoreWF st) (ha : AcyclicStore st)
    (h : taskResource_patch fuel st uid task_id u now = some (.ok (st', rt))) :
    StoreWF st' ∧ AcyclicStore st' := by
  obtain ⟨tid, doc, pf, hoid, hdoc, hst, hcases⟩ := patch_ok_inv h
  obtain ⟨hmem, hown⟩ := findOwned_mem hdoc
  obtain ⟨hnd, href⟩ := hwf
  have hntu : (applySetOps doc u pf now).user_id = doc.user_id := rfl
  have hchar := childStep_updateOwned hnd hmem hown (applySetOps doc u pf now)
  subst hst
  rcases hcases with ⟨hupid, hpf⟩ | ⟨pval, hupid, hpf⟩ |
      ⟨pval, p, hupid, hpf, ⟨pd, hpd⟩, hne, L, hL, hpL⟩
  · -- parent not in the payload: the parent pointer is unchanged
    subst hpf
    have hntp : (applySetOps doc u none now).parent_id = doc.parent_id := rfl
    constructor
    · apply updateOwned_WF hnd href hmem hown hntu
      intro q' hq'
      rw [hntp] at hq'
      obtain ⟨t, ht, htu⟩ := href (tid, doc) hmem q' hq'
      exact ⟨t, ht, htu⟩
    · have hiff : ∀ u' a b,
          childStep (updateOwned st tid uid (applySetOps doc u none now)) u' a b ↔
          childStep st u' a b := by
        intro u' a b
        rw [hchar u' a b]
        constructor
        · rintro (⟨_, h1⟩ | ⟨hb, hu', hp'⟩)
          · exact h1
          · rw [hb]
            rw [hntp] at hp'
            exact (childStep_into_key hnd hmem u' a).mpr ⟨by rw [← hntu]; exact hu', hp'⟩
        · intro hcs
          by_cases hb : b = tid
          · right
            rw [hb] at hcs
            obtain ⟨hdu, hdp⟩ := (childStep_into_key hnd hmem u' a).mp hcs
            exact ⟨hb, by rw [hntu]; exact hdu, by rw [hntp]; exact hdp⟩
          · exact Or.inl ⟨hb, hcs⟩
      intro u' a hcyc
      exact ha u' a (hcyc.mono fun x y hxy => (hiff u' x y).mp hxy)
  · -- parent_id set to null: only removes an edge
    subst hpf
    have hntp : (applySetOps doc u (some none) now).parent_id = none := rfl
    constructor
    · apply updateOwned_WF hnd href hmem hown hntu
      intro q' hq'
      rw [hntp] at hq'
      cases hq'
    · apply acyclic_of_subrel ?_ ha
      intro u' a b hstep
      rcases (hchar u' a b).mp hstep with ⟨_, h1⟩ | ⟨_, _, hp'⟩
      · exact h1
      · rw [hntp] at hp'
        cases hp'
  · -- re-parent to an existing task p, checked non-circular
    subst hpf
    have hntp : (applySetOps doc u (some (some p)) now).parent_id = some p := rfl
    obtain ⟨hpmem, hpu⟩ := findOwned_mem hpd
    constructor
    · apply updateOwned_WF hnd href hmem hown hntu
      intro q' hq'
      rw [hntp] at hq'
      injection hq' with hq''
      rw [← hq'']
      exact ⟨pd, hpmem, by rw [hpu, hown]⟩
    · intro u'
      by_cases huu : doc.user_id = u'
      · have huid : u' = uid := by rw [← huu, hown]
        rw [huid]
        have hchar' : ∀ a b,
            childStep (updateOwned st tid uid (applySetOps doc u (some (some p)) now)) uid a b ↔
            ((¬(b = tid) ∧ childStep st uid a b) ∨ (b = tid ∧ a = p)) := by
          intro a b
          rw [hchar uid a b]
          constructor
          · rintro (h1 | ⟨hb, _, hp'⟩)
            · exact Or.inl h1
            · rw [hntp] at hp'
              injection hp' with hp''
              exact Or.inr ⟨hb, hp''.symm⟩
          · rintro (h1 | ⟨hb, ha2⟩)
            · exact Or.inl h1
            · refine Or.inr ⟨hb, by rw [hntu]; exact hown, by rw [hntp, ha2]⟩
        have hnr : ¬ Relation.ReflTransGen (childStep st uid) tid p := by
          intro hreach
          exact hpL ((collect_sup hL).2 p hreach)
        exact no_cycle_redirect hchar' (ha uid) hnr
      · intro a hcyc
        apply ha u' a
        apply hcyc.mono
        intro x y hxy
        rcases (hchar u' x y).mp hxy with ⟨_, h1⟩ | ⟨_, hu2, _⟩
        · exact h1
        · rw [hntu] at hu2
          exact absurd hu2 huu

lemma patch_circular_rejected {fuel : Nat} {st : Store} {uid : Nat}
    {task_id : String} {tid : Nat} {doc : Task} {pval : Option String} {p : Nat}
    {now : Nat} {u : Updates}
    (hoid : oid (some task_id) = .ok (some tid))
    (hdoc : findOwned st tid uid = some doc)
    (hup : u.parent_id = some pval)
    (hpv : oid pval = .ok (some p))
    (hpex : ∃ pd, findOwned st p uid = some pd)
    (hbad : p = tid ∨ ∃ L, collect_descendants fuel st uid tid = some L ∧ p ∈ L) :
    taskResource_patch fuel st uid task_id u now
      = some (.error "parent_id cannot be the task itself.") ∨
    taskResource_patch fuel st uid task_id u now
      = some (.error "parent_id cannot be a descendant of the task (circular hierarchy).") := by
  obtain ⟨pd, hpd⟩ := hpex
  by_cases hpt : p = tid
  · left
    simp only [taskResource_patch, hoid, hdoc, hup, hpv, hpd,
      prevent_circular_parent, if_pos hpt]
  · right
    rcases hbad with hbad1 | ⟨L, hL, hpL⟩
    · exact absurd hbad1 hpt
    · simp only [taskResource_patch, hoid, hdoc, hup, hpv, hpd,
        prevent_circular_parent, if_neg hpt, hL, if_pos hpL]

/-- C1: for every owner the parent graph stays a forest. Every create and
every update preserves well-formedness (unique ids, same-owner existing
parents) and acyclicity of the owner-scoped parent graph, so any sequence
of create/update requests from the empty store yields an acyclic graph;
and an update whose new parent resolves to the task itself, or to a member
of `collect_descendants` computed on the pre-update store, is rejected
with one of the two CircularParent errors. -/
theorem C1_parent_graph_acyclic :
    (∀ (st : Store) (o : Op), o.isCreateOrUpdate →
        StoreWF st ∧ AcyclicStore st →
        StoreWF (runOp st o) ∧ AcyclicStore (runOp st o)) ∧
    (∀ ops : List Op, (∀ o ∈ ops, o.isCreateOrUpdate) →
        StoreWF (runOps ops []) ∧ AcyclicStore (runOps ops [])) ∧
    (∀ (fuel : Nat) (st : Store) (uid : Nat) (task_id : String) (tid : Nat)
        (doc : Task) (pval : Option String) (p now : Nat) (u : Updates),
        oid (some task_id) = .ok (some tid) →
        findOwned st tid uid = some doc →
        u.parent_id = some pval →
        oid pval = .ok (some p) →
        (∃ pd, findOwned st p uid = some pd) →
        (p = tid ∨ ∃ L, collect_descendants fuel st uid tid = some L ∧ p ∈ L) →
        (taskResource_patch fuel st uid task_id u now
            = some (.error "parent_id cannot be the task itself.") ∨
         taskResource_patch fuel st uid task_id u now
            = some (.error "parent_id cannot be a descendant of the task (circular hierarchy)."))) := by
  have hstep : ∀ (st : Store) (o : Op), o.isCreateOrUpdate →
      StoreWF st ∧ AcyclicStore st →
      StoreWF (runOp st o) ∧ AcyclicStore (runOp st o) := by
    rintro st o hcu ⟨hwf, ha⟩
    cases o with
    | create uid title d pr em dd pid c now =>
      simp only [runOp]
      cases hres : tasksCollection_post st uid (freshId st) title d pr em dd pid c now with
      | error e => exact ⟨hwf, ha⟩
      | ok pr' =>
        obtain ⟨st', doc⟩ := pr'
        exact create_preserves hwf ha (freshId_not_mem st) hres
    | update fuel uid task_id u' now =>
      simp only [runOp]
      cases hres : taskResource_patch fuel st uid task_id u' now with
      | none => exact ⟨hwf, ha⟩
      | some r =>
        cases r with
        | error e => exact ⟨hwf, ha⟩
        | ok pr' =>
          obtain ⟨st', rt⟩ := pr'
          exact update_preserves hwf ha hres
    | destroy fuel uid task_id cascade => exact False.elim hcu
    | complete fuel uid task_id now => exact False.elim hcu
  refine ⟨hstep, ?_, ?_⟩
  · intro ops hops
    have hrun : ∀ (l : List Op), (∀ o ∈ l, o.isCreateOrUpdate) → ∀ st,
        StoreWF st ∧ AcyclicStore st →
        StoreWF (runOps l st) ∧ AcyclicStore (runOps l st) := by
      intro l
      induction l with
      | nil => intro _ st h; exact h
      | cons o rest ih =>
        intro hall st h
        exact ih (fun o' ho' => hall o' (List.mem_cons.mpr (Or.inr ho'))) _
          (hstep st o (hall o (List.mem_cons.mpr (Or.inl rfl))) h)
    refine hrun ops hops [] ⟨⟨by simp, ?_⟩, ?_⟩
    · intro e he
      cases he
    · intro uid a hcyc
      obtain ⟨c, _, hstep'⟩ := Relation.TransGen.tail'_iff.mp hcyc
      obtain ⟨t, hm, _⟩ := hstep'
      cases hm
  · intro fuel st uid task_id tid doc pval p now u' h1 h2 h3 h4 h5 h6
    exact patch_circular_rejected h1 h2 h3 h4 h5 h6

/-- C1 witness: two creates (B a child of A) from the empty store leave a
well-formed acyclic forest. -/
theorem C1_witness :
    StoreWF (runOps [.create 1 "A" none none none none none false 0,
      .create 1 "B" none none none none (some "000000000000000000000001") false 1] []) ∧
    AcyclicStore (runOps [.create 1 "A" none none none none none false 0,
      .create 1 "B" none none none none (some "000000000000000000000001") false 1] []) :=
  C1_parent_graph_acyclic.2.1
    [.create 1 "A" none none none none none false 0,
     .create 1 "B" none none none none (some "000000000000000000000001") false 1]
    (by
      intro o ho
      rcases List.mem_cons.mp ho with rfl | ho'
      · trivial
      · rcases List.mem_cons.mp ho' with rfl | ho''
        · trivial
        · cases ho'')

end Todo
